import Mathlib

/-
A verification development for the pageindex-ts repository: a Lean model of
the Markdown-to-tree pipeline (header scanner, section materializer, token
accountant, thinning reducer, stack-based tree builder, summarizer, JSON
extraction helper), translated from the TypeScript sources, together with
theorems settling the specification's claims.

Modeling conventions, used throughout:
  - A JavaScript string is modeled as a Lean `String` (a list of characters);
    `text.length` counts UTF-16 code units in JS and code points here, which
    agree on the basic multilingual plane.
  - All string operations used by the source (trim, split, indexOf, replace,
    padStart, ...) are reimplemented below by structural recursion over
    `List Char`, following the ECMAScript semantics the source relies on.
  - An async function returning a string that may reject is modeled as a
    function into `Except String String`; `await` is the `Except` bind.
  - `undefined`/absent optional fields are `Option.none`.
-/

/-- Whitespace class of JavaScript's regular-expression `\s` and of
`String.prototype.trim` (ASCII whitespace plus the Unicode space
separators). -/
def jsIsWhitespace (c : Char) : Bool :=
  c = ' ' || c = '\t' || c = '\n' || c = '\x0b' || c = '\x0c' || c = '\r' ||
  c = '\u00a0' || c = '\u1680' || ('\u2000' ≤ c && c ≤ '\u200a') ||
  c = '\u2028' || c = '\u2029' || c = '\u202f' || c = '\u205f' || c = '\u3000' ||
  c = '\ufeff'

/-- Characters that the regular-expression metacharacter `.` does not match
(ECMAScript line terminators). -/
def jsLineTerminator (c : Char) : Bool :=
  c = '\n' || c = '\r' || c = '\u2028' || c = '\u2029'

/-- `String.prototype.trim` on a character list: drop leading and trailing
JS whitespace. -/
def trimChars (l : List Char) : List Char :=
  ((l.dropWhile jsIsWhitespace).reverse.dropWhile jsIsWhitespace).reverse

/-- `String.prototype.trim`. -/
def jsTrim (s : String) : String := ⟨trimChars s.data⟩

/-- Delete every JS whitespace character. Used to state "equal up to
whitespace" properties. -/
def stripWsChars (l : List Char) : List Char :=
  l.filter (fun c => !jsIsWhitespace c)

/-- Delete every JS whitespace character of a string. -/
def stripWs (s : String) : String := ⟨stripWsChars s.data⟩

/-- Helper for `String.prototype.split('\n')`: `acc` holds the current line
reversed. -/
def splitLinesAux : List Char → List Char → List (List Char)
  | acc, [] => [acc.reverse]
  | acc, c :: cs =>
    if c = '\n' then acc.reverse :: splitLinesAux [] cs
    else splitLinesAux (c :: acc) cs

/-- `markdownContent.split('\n')`. -/
def jsSplitLines (s : String) : List String :=
  (splitLinesAux [] s.data).map (fun l => ⟨l⟩)

/-- `Array.prototype.join('\n')` on character lists. -/
def joinWithNl : List (List Char) → List Char
  | [] => []
  | [l] => l
  | l :: l2 :: rest => l ++ '\n' :: joinWithNl (l2 :: rest)

/-- `lines.join('\n')`. -/
def joinLines (lines : List String) : String :=
  ⟨joinWithNl (lines.map (fun s => s.data))⟩

/-- `String(n)` for a natural number. -/
def natToStr (n : Nat) : String := Nat.repr n

/-- `String.prototype.padStart(4, '0')`. -/
def padStart4 (s : String) : String :=
  if 4 ≤ s.data.length then s else ⟨List.replicate (4 - s.data.length) '0' ++ s.data⟩

/-- `String(nodeCounter).padStart(4, '0')`: the zero-padded decimal node
identifiers used by both identifier passes. -/
def nodeIdString (n : Nat) : String := padStart4 (natToStr n)

/-- Helper to estimate tokens (4 chars/token): `Math.ceil(text.length / 4)`
(from `src/config`). -/
def estimateTokens (text : String) : Nat := (text.data.length + 3) / 4

/- ===================== Header Scanner (`src/markdown/parser`) ============ -/

/-- An entry of the scanner's `nodeList`: `{ nodeTitle, lineNum }` with
1-based line numbers. -/
structure ScanNode where
  nodeTitle : String
  lineNum : Nat
deriving Repr, DecidableEq

/-- Matching of the header pattern `^(#{1,6})\s+(.+)$` against an (already
trimmed) line, returning `match[2].trim()` on success.  Per ECMAScript
regular-expression semantics the match succeeds exactly when: the maximal
leading run of `#` has length 1..6, the next character is `\s` whitespace,
and what follows the whitespace run is nonempty and free of line
terminators (which `.` cannot match); the greedy `\s+` then leaves exactly
that remainder as `match[2]`.  (For an input with trailing whitespace - which
`scanLines` never passes, since it matches the trimmed line - the returned
title is additionally trimmed, as the source does.) -/
def headerMatch (stripped : List Char) : Option (List Char) :=
  let hashes := stripped.takeWhile (fun c => c = '#')
  let rest := stripped.dropWhile (fun c => c = '#')
  if 1 ≤ hashes.length ∧ hashes.length ≤ 6 then
    match rest with
    | [] => none
    | c :: _ =>
      if jsIsWhitespace c then
        let title := rest.dropWhile jsIsWhitespace
        if title ≠ [] ∧ title.all (fun ch => !jsLineTerminator ch) then
          some (trimChars title)
        else none
      else none
  else none

/-- The scan loop of `extractNodesFromMarkdown`: walks the lines carrying the
1-based line counter and the fenced-code-block flag.  A line whose trimmed
form starts with three backticks flips the flag (and is never a heading);
blank lines are skipped; otherwise, outside code blocks, the header pattern
is tried on the trimmed line. -/
def scanLines : List String → Nat → Bool → List ScanNode
  | [], _, _ => []
  | line :: restLines, lineNum, inCodeBlock =>
    let strippedLine := jsTrim line
    if List.isPrefixOf ('`' :: '`' :: '`' :: []) strippedLine.data then
      scanLines restLines (lineNum + 1) (!inCodeBlock)
    else if strippedLine.data = [] then
      scanLines restLines (lineNum + 1) inCodeBlock
    else if !inCodeBlock then
      match headerMatch strippedLine.data with
      | some title =>
        { nodeTitle := ⟨title⟩, lineNum := lineNum } :: scanLines restLines (lineNum + 1) inCodeBlock
      | none => scanLines restLines (lineNum + 1) inCodeBlock
    else
      scanLines restLines (lineNum + 1) inCodeBlock

/-- `extractNodesFromMarkdown`: split into lines and scan for headings. -/
def extractNodesFromMarkdown (markdownContent : String) : List ScanNode × List String :=
  let lines := jsSplitLines markdownContent
  (scanLines lines 1 false, lines)

/- ================= Section Materializer (`src/markdown/parser`) ========== -/

/-- The `MarkdownNode` record of the parser: `{ title, lineNum, level, text?,
textTokenCount? }`. -/
structure MarkdownNode where
  title : String
  lineNum : Nat
  level : Nat
  text : Option String := none
  textTokenCount : Option Nat := none
deriving Repr, DecidableEq

instance : Inhabited MarkdownNode := ⟨{ title := "", lineNum := 0, level := 0 }⟩

/-- Length of the leading run of `#` characters. -/
def leadingHashCount (l : List Char) : Nat :=
  (l.takeWhile (fun c => c = '#')).length

/-- First loop of `extractNodeTextContent`: re-reads each entry's raw line and
matches `/^(#{1,6})/` against it (no trimming here).  A raw line that does
not itself start with `#` fails the match and the entry is skipped
(`continue`); otherwise the captured level is the leading-`#` count, capped
at 6 by the bounded quantifier.  Out-of-range line numbers are modeled by
the empty line (which never matches); in the composed pipeline the scanner
guarantees `1 ≤ lineNum ≤ lines.length`. -/
def headerNodesOf (nodeList : List ScanNode) (markdownLines : List String) : List MarkdownNode :=
  nodeList.filterMap (fun node =>
    let lineContent := markdownLines.getD (node.lineNum - 1) ("")
    let k := leadingHashCount lineContent.data
    if k = 0 then none
    else some { title := node.nodeTitle, lineNum := node.lineNum, level := min k 6 })

/-- `markdownLines.slice(a, b)`. -/
def sliceLines (markdownLines : List String) (a b : Nat) : List String :=
  (markdownLines.drop a).take (b - a)

/-- A section's owned text: `markdownLines.slice(startLine, endLine).join('\n').trim()`. -/
def spanText (markdownLines : List String) (a b : Nat) : String :=
  jsTrim (joinLines (sliceLines markdownLines a b))

/-- Second loop of `extractNodeTextContent`: node `i`'s span runs from its own
heading line up to (excluding) node `i+1`'s heading line, or to document end
for the last node. -/
def attachTexts : List MarkdownNode → List String → List MarkdownNode
  | [], _ => []
  | [node], markdownLines =>
    [{ node with text := some (spanText markdownLines (node.lineNum - 1) markdownLines.length) }]
  | node :: next :: rest, markdownLines =>
    { node with text := some (spanText markdownLines (node.lineNum - 1) (next.lineNum - 1)) }
      :: attachTexts (next :: rest) markdownLines

/-- `extractNodeTextContent`: build the level-tagged nodes, then attach each
node's owned text span. -/
def extractNodeTextContent (nodeList : List ScanNode) (markdownLines : List String) : List MarkdownNode :=
  attachTexts (headerNodesOf nodeList markdownLines) markdownLines

/- ============ Token Accountant and Thinning Reducer (`parser`) =========== -/

/-- Loop body of `findAllChildren`: collect consecutive indices as long as the
level stays strictly greater than the parent's. -/
def findAllChildrenGo (parentLevel : Nat) : List MarkdownNode → Nat → List Nat
  | [], _ => []
  | node :: rest, i =>
    if node.level ≤ parentLevel then []
    else i :: findAllChildrenGo parentLevel rest (i + 1)

/-- `findAllChildren`: indices `i > parentIndex` up to (excluding) the first
subsequent index whose level is `≤ parentLevel`. -/
def findAllChildren (parentIndex parentLevel : Nat) (nodeList : List MarkdownNode) : List Nat :=
  findAllChildrenGo parentLevel (nodeList.drop (parentIndex + 1)) (parentIndex + 1)

/-- One iteration of `updateNodeListWithTextTokenCount`'s backward loop:
concatenate the node's own text with each truthy child text (separated by a
newline) and store the token estimate. -/
def updateTokenStep (i : Nat) (lst : List MarkdownNode) : List MarkdownNode :=
  match lst[i]? with
  | none => lst
  | some currentNode =>
    let childrenIndices := findAllChildren i currentNode.level lst
    let totalText := childrenIndices.foldl (fun totalText childIndex =>
      match (lst[childIndex]?).bind (fun nd => nd.text) with
      | some childText =>
        if childText.data = [] then totalText else totalText ++ ("\n") ++ childText
      | none => totalText) (currentNode.text.getD (""))
    lst.set i { currentNode with textTokenCount := some (estimateTokens totalText) }

/-- The backward loop `for (i = length - 1; i >= 0; i--)` of the accountant. -/
def updateTokenAux : Nat → List MarkdownNode → List MarkdownNode
  | 0, lst => lst
  | i + 1, lst => updateTokenAux i (updateTokenStep i lst)

/-- `updateNodeListWithTextTokenCount`. -/
def updateNodeListWithTextTokenCount (nodeList : List MarkdownNode) : List MarkdownNode :=
  updateTokenAux nodeList.length nodeList

/-- `mergedText.endsWith('\n')`. -/
def endsWithNewline (s : String) : Bool := s.data.getLast? = some '\n'

/-- The child-collection loop of `treeThinningForIndex` for one absorbing
node: walk the child indices in ascending order (the source's defensive
`.sort((a, b) => a - b)` is the identity because `findAllChildren` already
returns an ascending range; see `findAllChildren_eq_range'`), skip indices
already marked for removal, collect each surviving child text whose trim is
nonempty, and mark every visited child for removal.  Returns the collected
texts and the updated removal set (`nodesToRemove`, modeled as the list of
marked indices in insertion order; marks are only added for indices not yet
present, so it never holds duplicates). -/
def collectStep (lst : List MarkdownNode) (acc : List String × List Nat) (childIndex : Nat) :
    List String × List Nat :=
  if childIndex ∈ acc.2 then acc
  else
    match (lst[childIndex]?).bind (fun nd => nd.text) with
    | some childText =>
      if (jsTrim childText).data = [] then (acc.1, acc.2 ++ [childIndex])
      else (acc.1 ++ [childText], acc.2 ++ [childIndex])
    | none => (acc.1, acc.2 ++ [childIndex])

def collectChildren (lst : List MarkdownNode) (childrenIndices : List Nat) (rem : List Nat) :
    List String × List Nat :=
  childrenIndices.foldl (collectStep lst) ([], rem)

/-- The merge loop of `treeThinningForIndex`: append each collected child text,
preceded by a blank line whenever the text so far is nonempty and does not
already end with a newline. -/
def mergeTexts (ownText : String) (childrenTexts : List String) : String :=
  childrenTexts.foldl (fun mergedText childText =>
    let mergedText :=
      if mergedText.data ≠ [] ∧ ¬ endsWithNewline mergedText then mergedText ++ ("\n\n")
      else mergedText
    mergedText ++ childText) ownText

/-- One iteration of `treeThinningForIndex`'s backward loop at index `i` over
the state (current list, removal marks). -/
def thinStep (minNodeToken : Nat) (i : Nat) (st : List MarkdownNode × List Nat) :
    List MarkdownNode × List Nat :=
  let lst := st.1
  let rem := st.2
  if i ∈ rem then st
  else
    match lst[i]? with
    | none => st
    | some currentNode =>
      let totalTokens := currentNode.textTokenCount.getD 0
      if totalTokens < minNodeToken then
        let childrenIndices := findAllChildren i currentNode.level lst
        let collected := collectChildren lst childrenIndices rem
        if collected.1 ≠ [] then
          let mergedText := mergeTexts (currentNode.text.getD ("")) collected.1
          (lst.set i { currentNode with
              text := some mergedText,
              textTokenCount := some (estimateTokens mergedText) }, collected.2)
        else (lst, collected.2)
      else st

/-- The backward loop `for (i = length - 1; i >= 0; i--)` of the reducer. -/
def thinAux (minNodeToken : Nat) : Nat → List MarkdownNode × List Nat → List MarkdownNode × List Nat
  | 0, st => st
  | i + 1, st => thinAux minNodeToken i (thinStep minNodeToken i st)

/-- Physical removal of the absorbed sections:
`Array.from(nodesToRemove).sort((a, b) => b - a)` followed by one `splice`
per index.  The marked indices are distinct and all below the list length,
so the descending sort of the set is exactly the descending enumeration
`((range length).filter (· ∈ rem)).reverse`; each `splice(index, 1)` is
`List.eraseIdx`. -/
def removeAbsorbed (lst : List MarkdownNode) (rem : List Nat) : List MarkdownNode :=
  let indicesToRemove := ((List.range lst.length).filter (fun j => decide (j ∈ rem))).reverse
  indicesToRemove.foldl (fun l index => l.eraseIdx index) lst

/-- `treeThinningForIndex`: run the backward merge loop starting from an empty
removal set, then physically remove every marked index. -/
def treeThinningForIndex (nodeList : List MarkdownNode) (minNodeToken : Nat) : List MarkdownNode :=
  let final := thinAux minNodeToken nodeList.length (nodeList, [])
  removeAbsorbed final.1 final.2

/- ===================== Tree data model (`src/types`) ===================== -/

mutual
/-- The `TreeNode` interface: `{ title, nodeId?, startIndex?, endIndex?,
summary?, prefixSummary?, text?, nodes? }`.  The child array is the mutual
type `Forest` (a list of nodes); an absent `nodes` field and an empty array
are identified, which is observationally faithful: every consumer of the
tree (`structureToList`, `writeNodeId`, `getLeafNodes`, `formatStructure`,
the summary-assignment loop) treats a missing child array and an empty one
identically. -/
inductive TreeNode where
  | mk (title : String) (nodeId : Option String) (startIndex : Option Nat)
       (endIndex : Option Nat) (summary : Option String) (prefixSummary : Option String)
       (text : Option String) (nodes : Forest) : TreeNode
/-- A child array of `TreeNode`s. -/
inductive Forest where
  | nil : Forest
  | cons (t : TreeNode) (ts : Forest) : Forest
end

def TreeNode.title : TreeNode → String | .mk a _ _ _ _ _ _ _ => a

def TreeNode.nodeId : TreeNode → Option String | .mk _ b _ _ _ _ _ _ => b

def TreeNode.startIndex : TreeNode → Option Nat | .mk _ _ c _ _ _ _ _ => c

def TreeNode.endIndex : TreeNode → Option Nat | .mk _ _ _ d _ _ _ _ => d

def TreeNode.summary : TreeNode → Option String | .mk _ _ _ _ e _ _ _ => e

def TreeNode.prefixSummary : TreeNode → Option String | .mk _ _ _ _ _ f _ _ => f

def TreeNode.text : TreeNode → Option String | .mk _ _ _ _ _ _ g _ => g

def TreeNode.nodes : TreeNode → Forest | .mk _ _ _ _ _ _ _ ns => ns

/-- `parent.nodes.push(child)` (append at the end of the child array). -/
def Forest.push : Forest → TreeNode → Forest
  | .nil, child => .cons child .nil
  | .cons t ts, child => .cons t (ts.push child)

/-- A node's scalar fields, without the child array (the shape of
`Omit<TreeNode, 'nodes'>` produced by rest destructuring in the source). -/
structure NodeData where
  title : String
  nodeId : Option String
  startIndex : Option Nat
  endIndex : Option Nat
  summary : Option String
  prefixSummary : Option String
  text : Option String
deriving Repr, DecidableEq

/-- Project a node onto its scalar fields. -/
def dataOf : TreeNode → NodeData
  | .mk a b c d e f g _ => ⟨a, b, c, d, e, f, g⟩

/- ================= Tree Builder (`src/markdown/tree.ts`) ================= -/

/-- A stack entry of `buildTreeFromNodes`: `{ node, level }`. -/
structure BuildEntry where
  node : TreeNode
  level : Nat

/-- Attach a child as the last element of a node's child array
(`parent.nodes.push(treeNode)`). -/
def pushChild (t : TreeNode) (child : TreeNode) : TreeNode :=
  match t with
  | .mk a b c d e f g ns => .mk a b c d e f g (ns.push child)

/-
The source's builder mutates shared references: a node is pushed into its
parent's `nodes` array the moment it is created, and keeps growing through
its stack reference afterwards.  The value-level model below defers each
attachment to the moment the child is popped, when its subtree is complete;
`popAttach`/`flushChain` perform exactly those deferred attachments, so the
final forest is the one the mutating code leaves in `rootNodes`.
-/

/-- Continuation of the builder's pop loop after popping `child`: attach
`child` to the new stack top (or as a finished root when the stack is
empty), and keep popping while the top's level is `≥ currentLevel`. -/
def popAttach (currentLevel : Nat) (child : TreeNode) (rootNodes : List TreeNode) :
    List BuildEntry → List TreeNode × List BuildEntry
  | [] => (rootNodes ++ [child], [])
  | e :: stack =>
    let e2 : BuildEntry := { node := pushChild e.node child, level := e.level }
    if currentLevel ≤ e2.level then popAttach currentLevel e2.node rootNodes stack
    else (rootNodes, e2 :: stack)

/-- The builder's pop loop
`while (stack.length > 0 && stack[stack.length - 1].level >= currentLevel)`. -/
def popGE (currentLevel : Nat) (rootNodes : List TreeNode) :
    List BuildEntry → List TreeNode × List BuildEntry
  | [] => (rootNodes, [])
  | e :: stack =>
    if currentLevel ≤ e.level then popAttach currentLevel e.node rootNodes stack
    else (rootNodes, e :: stack)

/-- Deferred-attachment flush of the remaining open chain with `child` already
popped: attach it upward entry by entry until the bottom entry closes into
`rootNodes`. -/
def flushChain (child : TreeNode) (rootNodes : List TreeNode) :
    List BuildEntry → List TreeNode
  | [] => rootNodes ++ [child]
  | e :: stack => flushChain (pushChild e.node child) rootNodes stack

/-- Flush all still-open stack entries into the finished root list. -/
def flushAll (rootNodes : List TreeNode) : List BuildEntry → List TreeNode
  | [] => rootNodes
  | e :: stack => flushChain e.node rootNodes stack

/-- The loop body of `buildTreeFromNodes`: create the node (with the builder's
own running counter for `nodeId`, starting at 1, zero-padded), pop
equal-or-deeper open entries, then push the new entry. -/
def buildStep (st : (List TreeNode × List BuildEntry) × Nat) (node : MarkdownNode) :
    (List TreeNode × List BuildEntry) × Nat :=
  let currentLevel := node.level
  let treeNode : TreeNode :=
    .mk node.title (some (nodeIdString st.2)) (some node.lineNum) none none none node.text .nil
  let popped := popGE currentLevel st.1.1 st.1.2
  ((popped.1, { node := treeNode, level := currentLevel } :: popped.2), st.2 + 1)

/-- `buildTreeFromNodes`: fold the flat section list through the stack
discipline and close the remaining chain.  (The source's early return for an
empty input produces the same empty root list as the general path.) -/
def buildTreeFromNodes (nodeList : List MarkdownNode) : List TreeNode :=
  let st := nodeList.foldl buildStep (([], []), 1)
  flushAll st.1.1 st.1.2

/- ================ Tree utilities (`src/utils/tree.ts`) =================== -/

mutual
/-- `writeNodeId` on a single node: set the running identifier (zero-padded),
increment, then recurse into the children. Returns the next free id. -/
def writeNodeIdT : TreeNode → Nat → TreeNode × Nat
  | .mk a _ c d e f g ns, nodeId =>
    let updated := writeNodeIdF ns (nodeId + 1)
    (.mk a (some (nodeIdString nodeId)) c d e f g updated.1, updated.2)
/-- `writeNodeId` on a child array. -/
def writeNodeIdF : Forest → Nat → Forest × Nat
  | .nil, nodeId => (.nil, nodeId)
  | .cons t ts, nodeId =>
    let u := writeNodeIdT t nodeId
    let v := writeNodeIdF ts u.2
    (.cons u.1 v.1, v.2)
end

/-- `writeNodeId` on the root list (the call `writeNodeId(treeStructure)` of
`mdToTree`, with the default starting id 0). -/
def writeNodeIdRoots : List TreeNode → Nat → List TreeNode × Nat
  | [], nodeId => ([], nodeId)
  | t :: ts, nodeId =>
    let u := writeNodeIdT t nodeId
    let v := writeNodeIdRoots ts u.2
    (u.1 :: v.1, v.2)

mutual
/-- `structureToList` on a single node: the node itself followed by the
pre-order flattening of its children. -/
def structureToListT : TreeNode → List TreeNode
  | .mk a b c d e f g ns => .mk a b c d e f g ns :: structureToListF ns
/-- `structureToList` on a child array. -/
def structureToListF : Forest → List TreeNode
  | .nil => []
  | .cons t ts => structureToListT t ++ structureToListF ts
end

/-- `structureToList` on the root list. -/
def structureToList : List TreeNode → List TreeNode
  | [] => []
  | t :: ts => structureToListT t ++ structureToList ts

mutual
/-- `getLeafNodes` on a single node: a childless node contributes itself
(without the `nodes` field); otherwise recurse into the children. -/
def getLeafNodesT : TreeNode → List NodeData
  | .mk a b c d e f g ns =>
    match ns with
    | .nil => [⟨a, b, c, d, e, f, g⟩]
    | .cons _ _ => getLeafNodesF ns
/-- `getLeafNodes` on a child array. -/
def getLeafNodesF : Forest → List NodeData
  | .nil => []
  | .cons t ts => getLeafNodesT t ++ getLeafNodesF ts
end

/-- `getLeafNodes` on the root list. -/
def getLeafNodes : List TreeNode → List NodeData
  | [] => []
  | t :: ts => getLeafNodesT t ++ getLeafNodes ts

mutual
/-- `formatStructure` with one of the two key orders used by `mdToTree`
(`keyOrder` with or without `'text'`).  Reordering the keys of a record is
not observable in this model; its effect is that fields outside the order
are dropped: `endIndex` is never in the order, `text` only when requested.
Deleting empty `nodes` arrays is the identity here (absent ≡ empty). -/
def formatStructureT (keepText : Bool) : TreeNode → TreeNode
  | .mk a b c _ e f g ns =>
    .mk a b c none e f (if keepText then g else none) (formatStructureF keepText ns)
/-- `formatStructure` on a child array. -/
def formatStructureF (keepText : Bool) : Forest → Forest
  | .nil => .nil
  | .cons t ts => .cons (formatStructureT keepText t) (formatStructureF keepText ts)
end

/-- `formatStructure` on the root list. -/
def formatStructureRoots (keepText : Bool) : List TreeNode → List TreeNode
  | [] => []
  | t :: ts => formatStructureT keepText t :: formatStructureRoots keepText ts

/- ================= Configuration (`src/config`, `src/types`) ============= -/

/-- The user-supplied generation function `(prompt: string) => Promise<string>`:
a prompt-to-text function whose promise may reject. -/
def LLMFunction : Type := String → Except String String

/-- `MarkdownOptions`: every field optional. -/
structure MarkdownOptions where
  llm : Option LLMFunction := none
  ifThinning : Option Bool := none
  thinningThreshold : Option Nat := none
  summaryTokenThreshold : Option Nat := none
  ifAddNodeSummary : Option Bool := none
  ifAddDocDescription : Option Bool := none
  ifAddNodeText : Option Bool := none
  ifAddNodeId : Option Bool := none

/-- `ResolvedMarkdownConfig`: options merged with `DEFAULT_MARKDOWN_CONFIG`;
the generation function stays optional. -/
structure ResolvedMarkdownConfig where
  llm : Option LLMFunction
  ifThinning : Bool
  thinningThreshold : Nat
  summaryTokenThreshold : Nat
  ifAddNodeSummary : Bool
  ifAddDocDescription : Bool
  ifAddNodeText : Bool
  ifAddNodeId : Bool

/-- `loadMarkdownConfig`: fill in the defaults
`{ ifThinning: false, thinningThreshold: 5000, summaryTokenThreshold: 200,
ifAddNodeSummary: true, ifAddDocDescription: false, ifAddNodeText: false,
ifAddNodeId: true }`.  Note that, unlike `loadConfig` of the page-based
path, this loader never throws: a missing `llm` is passed through as-is. -/
def loadMarkdownConfig (userOptions : MarkdownOptions) : ResolvedMarkdownConfig :=
  { llm := userOptions.llm
    ifThinning := userOptions.ifThinning.getD false
    thinningThreshold := userOptions.thinningThreshold.getD 5000
    summaryTokenThreshold := userOptions.summaryTokenThreshold.getD 200
    ifAddNodeSummary := userOptions.ifAddNodeSummary.getD true
    ifAddDocDescription := userOptions.ifAddDocDescription.getD false
    ifAddNodeText := userOptions.ifAddNodeText.getD false
    ifAddNodeId := userOptions.ifAddNodeId.getD true }

/- ================= Summarizer (`src/markdown/index.ts`) ================== -/

/-- The fixed prompt template of `getNodeSummary`. -/
def summaryPromptFor (nodeText : String) : String :=
  ("You are given a part of a document, your task is to generate a description of the partial document about what are main points covered in the partial document.\n\nPartial Document Text: ")
    ++ nodeText
    ++ ("\n\nDirectly return the description, do not include any other text.")

/-- `getNodeSummary`: below the token threshold the node's own text is the
summary (no model call); otherwise one request to the injected generation
function. -/
def getNodeSummary (node : TreeNode) (summaryTokenThreshold : Nat) (llm : LLMFunction) :
    Except String String :=
  let nodeText := node.text.getD ("")
  let numTokens := estimateTokens nodeText
  if numTokens < summaryTokenThreshold then .ok nodeText
  else llm (summaryPromptFor nodeText)

/-
`generateSummariesForStructureMd` mutates the tree through the live
references returned by `structureToList`, assigning `summaries[i]` to the
i-th flat node.  `writeBackT`/`writeBackF`/`writeBackRoots` model that
assignment loop by consuming the summary list in the same pre-order: the
node visited at flat position i receives the i-th summary, in `summary`
when its child array is empty and in `prefixSummary` otherwise.
-/

mutual
/-- Write-back of the summary list on a single node. -/
def writeBackT : TreeNode → List String → TreeNode × List String
  | t, [] => (t, [])
  | .mk a b c d e f g ns, s :: ss =>
    let u := writeBackF ns ss
    match ns with
    | .nil => (.mk a b c d (some s) f g u.1, u.2)
    | .cons _ _ => (.mk a b c d e (some s) g u.1, u.2)
/-- Write-back of the summary list on a child array. -/
def writeBackF : Forest → List String → Forest × List String
  | .nil, ss => (.nil, ss)
  | .cons t ts, ss =>
    let u := writeBackT t ss
    let v := writeBackF ts u.2
    (.cons u.1 v.1, v.2)
end

/-- Write-back of the summary list on the root list. -/
def writeBackRoots : List TreeNode → List String → List TreeNode × List String
  | [], ss => ([], ss)
  | t :: ts, ss =>
    let u := writeBackT t ss
    let v := writeBackRoots ts u.2
    (u.1 :: v.1, v.2)

/-- The joint wait `await Promise.all(summaryPromises)`: all results, or the
first failure. -/
def awaitAll (f : TreeNode → Except String String) : List TreeNode → Except String (List String)
  | [] => .ok []
  | node :: rest =>
    match f node with
    | .error e => .error e
    | .ok s =>
      match awaitAll f rest with
      | .error e => .error e
      | .ok ss => .ok (s :: ss)

/-- `generateSummariesForStructureMd`: issue one request per flat node
(`Promise.all` being the joint wait: any rejection makes the whole
operation fail before any assignment runs), then assign each result to
`summary` or `prefixSummary` according to the node's children. -/
def generateSummariesForStructureMd (structure' : List TreeNode)
    (summaryTokenThreshold : Nat) (llm : LLMFunction) : Except String (List TreeNode) :=
  let nodes := structureToList structure'
  match awaitAll (fun node => getNodeSummary node summaryTokenThreshold llm) nodes with
  | .error e => .error e
  | .ok summaries => .ok (writeBackRoots structure' summaries).1

/- ======== Document description (`generateDocDescription`) ================ -/

/-- A hexadecimal digit character. -/
def hexDigit (n : Nat) : Char :=
  if n < 10 then Char.ofNat ('0'.toNat + n) else Char.ofNat ('a'.toNat + (n - 10))

/-- `Array.prototype.join(sep)` on character lists. -/
def joinWithSep (sep : List Char) : List (List Char) → List Char
  | [] => []
  | [l] => l
  | l :: l2 :: rest => l ++ sep ++ joinWithSep sep (l2 :: rest)

/-- `JSON.stringify` escaping for one character of a string value. -/
def jsonEscapeChar (c : Char) : List Char :=
  if c = '"' then ['\\', '"']
  else if c = '\\' then ['\\', '\\']
  else if c = '\n' then ['\\', 'n']
  else if c = '\r' then ['\\', 'r']
  else if c = '\t' then ['\\', 't']
  else if c = '\x08' then ['\\', 'b']
  else if c = '\x0c' then ['\\', 'f']
  else if c.toNat < 32 then ['\\', 'u', '0', '0', hexDigit (c.toNat / 16), hexDigit (c.toNat % 16)]
  else [c]

/-- `JSON.stringify` of a string value. -/
def jsonQuote (s : String) : String :=
  ⟨'"' :: (s.data.map jsonEscapeChar).flatten ++ ['"']⟩

/-- `JSON.stringify` of one record of the cleaned structure
`{ title, nodeId, summary, prefixSummary }`: fields holding `undefined` are
omitted, the rest appear in insertion order. -/
def stringifyCleanRecord (t : TreeNode) : String :=
  let fields : List (Option String) :=
    [(t.nodeId).map (fun v => ("\x22nodeId\x22:") ++ jsonQuote v),
     (t.summary).map (fun v => ("\x22summary\x22:") ++ jsonQuote v),
     (t.prefixSummary).map (fun v => ("\x22prefixSummary\x22:") ++ jsonQuote v)]
  let present := (("\x22title\x22:") ++ jsonQuote t.title) :: fields.filterMap id
  ("\x7b") ++ ⟨joinWithSep [','] (present.map (fun s => s.data))⟩ ++ ("\x7d")

/-- `JSON.stringify(cleanStructure)` for the top-level projection used by the
document-description prompt. -/
def stringifyCleanStructure (structure' : List TreeNode) : String :=
  ("[") ++ ⟨joinWithSep [','] (structure'.map (fun t => (stringifyCleanRecord t).data))⟩ ++ ("]")

/-- The fixed prompt template of `generateDocDescription`. -/
def descriptionPromptFor (json : String) : String :=
  ("Your are an expert in generating descriptions for a document.\nYou are given a structure of a document. Your task is to generate a one-sentence description for the document, which makes it easy to distinguish the document from other documents.\n    \nDocument Structure: ")
    ++ json
    ++ ("\n\nDirectly return the description, do not include any other text.")

/-- `generateDocDescription`: one model call over the serialized projection
`{ title, nodeId, summary, prefixSummary }` of the root nodes. -/
def generateDocDescription (structure' : List TreeNode) (llm : LLMFunction) :
    Except String String :=
  llm (descriptionPromptFor (stringifyCleanStructure structure'))

/- ================= Conversion entry point (`mdToTree`) =================== -/

/-- `PageIndexResult`: `{ docName, docDescription?, structure }`. -/
structure PageIndexResult where
  docName : String
  docDescription : Option String := none
  structure' : List TreeNode

/-- The flat section list `mdToTree` builds the tree from: scan, materialize,
and - when thinning is enabled - account tokens and thin. -/
def mdFlatNodes (content : String) (config : ResolvedMarkdownConfig) : List MarkdownNode :=
  let scanned := extractNodesFromMarkdown content
  let nodesWithContent := extractNodeTextContent scanned.1 scanned.2
  if config.ifThinning then
    treeThinningForIndex (updateNodeListWithTextTokenCount nodesWithContent)
      config.thinningThreshold
  else nodesWithContent

/-- The tree after the optional identifier pass of `mdToTree`
(`if (config.ifAddNodeId) writeNodeId(treeStructure)`). -/
def mdTreeWithIds (content : String) (config : ResolvedMarkdownConfig) : List TreeNode :=
  let treeStructure := buildTreeFromNodes (mdFlatNodes content config)
  if config.ifAddNodeId then (writeNodeIdRoots treeStructure 0).1 else treeStructure

/-- The final `if (config.ifAddDocDescription && config.ifAddNodeSummary &&
config.llm)` step of `mdToTree`. -/
def addDocDescription (config : ResolvedMarkdownConfig) (result : PageIndexResult) :
    Except String PageIndexResult :=
  match config.llm with
  | some llm =>
    if config.ifAddDocDescription ∧ config.ifAddNodeSummary then
      match generateDocDescription result.structure' llm with
      | .error e => .error e
      | .ok d => .ok { result with docDescription := some d }
    else .ok result
  | none => .ok result

/-- `mdToTree`: resolve the configuration, build the (optionally thinned) flat
list, build the tree, optionally run the identifier pass, then either run
the summary pipeline (`if (config.ifAddNodeSummary && config.llm)`: format
with the full key order, generate and assign summaries, and drop `text`
again unless requested) or only format with the appropriate key order; in
both cases optionally add the document description.  A rejection of the
generation function propagates out as the `Except` error. -/
def mdToTree (content : String) (docName : String) (options : MarkdownOptions) :
    Except String PageIndexResult :=
  let config := loadMarkdownConfig options
  let treeStructure := mdTreeWithIds content config
  match config.ifAddNodeSummary, config.llm with
  | true, some llm =>
    let formatted := formatStructureRoots true treeStructure
    match generateSummariesForStructureMd formatted config.summaryTokenThreshold llm with
    | .error e => .error e
    | .ok summarized =>
      let finalStructure :=
        if config.ifAddNodeText then summarized else formatStructureRoots false summarized
      addDocDescription config { docName := docName, structure' := finalStructure }
  | _, _ =>
    let finalStructure := formatStructureRoots config.ifAddNodeText treeStructure
    addDocDescription config { docName := docName, structure' := finalStructure }

/- ============== JSON extraction helper (`src/utils/json.ts`) ============= -/

/-- A JSON value (the result type of the host runtime's `JSON.parse`). -/
inductive Json where
  | null : Json
  | bool (b : Bool) : Json
  | num (n : Int) : Json
  | str (s : String) : Json
  | arr (elems : List Json) : Json
  | obj (fields : List (String × Json)) : Json

/-- `String.prototype.indexOf` over character lists (0-based index of the
first occurrence, `none` for `-1`). -/
def indexOfAux (pat : List Char) : List Char → Nat → Option Nat
  | [], i => if List.isPrefixOf pat ([] : List Char) then some i else none
  | c :: cs, i =>
    if List.isPrefixOf pat (c :: cs) then some i else indexOfAux pat cs (i + 1)

/-- `content.indexOf(pat)`. -/
def indexOfStr (s pat : String) : Option Nat := indexOfAux pat.data s.data 0

/-- `String.prototype.lastIndexOf` over character lists. -/
def lastIndexOfAux (pat : List Char) : List Char → Nat → Option Nat → Option Nat
  | [], i, best => if List.isPrefixOf pat ([] : List Char) then some i else best
  | c :: cs, i, best =>
    lastIndexOfAux pat cs (i + 1) (if List.isPrefixOf pat (c :: cs) then some i else best)

/-- `content.lastIndexOf(pat)`. -/
def lastIndexOfStr (s pat : String) : Option Nat := lastIndexOfAux pat.data s.data 0 none

/-- `String.prototype.substring(i)`. -/
def substringFrom (s : String) (i : Nat) : String := ⟨s.data.drop i⟩

/-- `String.prototype.substring(0, i)` (a negative `i` is clamped to 0,
yielding the empty string). -/
def substringTo (s : String) (i : Nat) : String := ⟨s.data.take i⟩

/-- Global replacement of a nonempty literal pattern
(`String.prototype.replace` with a `/g` literal regex): left-to-right,
non-overlapping.  `skip` counts pattern characters still to swallow after a
match. -/
def replaceAllAux (pat repl : List Char) : List Char → Nat → List Char
  | [], _ => []
  | _ :: cs, skip + 1 => replaceAllAux pat repl cs skip
  | c :: cs, 0 =>
    if pat ≠ [] ∧ List.isPrefixOf pat (c :: cs) then
      repl ++ replaceAllAux pat repl cs (pat.length - 1)
    else c :: replaceAllAux pat repl cs 0

/-- `content.replace(patRegex, repl)` for a literal global pattern. -/
def replaceAllStr (s pat repl : String) : String :=
  ⟨replaceAllAux pat.data repl.data s.data 0⟩

/-- After a `,`: skip `\s*` and demand the closing character, returning the
remainder. -/
def afterWsClose (close : Char) : List Char → Option (List Char)
  | [] => none
  | c :: cs =>
    if c = close then some cs
    else if jsIsWhitespace c then afterWsClose close cs
    else none

/-- `content.replace(/,\s*X/g, 'X')` for a closing character `X`: drop a comma
followed by optional whitespace and the closer, keeping the closer;
scanning resumes after the replacement.  Structured with a fuel argument
bounding the input length (the recursive call's remainder is always
shorter, so the fuel never runs out when initialized to the length). -/
def stripCommaBeforeFuel (close : Char) : Nat → List Char → List Char
  | 0, l => l
  | _ + 1, [] => []
  | fuel + 1, c :: cs =>
    if c = ',' then
      match afterWsClose close cs with
      | some rest => close :: stripCommaBeforeFuel close fuel rest
      | none => c :: stripCommaBeforeFuel close fuel cs
    else c :: stripCommaBeforeFuel close fuel cs

/-- `content.replace(/,\s*X/g, 'X')`. -/
def stripCommaBefore (close : Char) (l : List Char) : List Char :=
  stripCommaBeforeFuel close l.length l

/-- Single-space collapse of whitespace runs:
`jsonContent.split(/\s+/).join(' ')` (empty boundary fragments of the split
reproduce leading/trailing single spaces). -/
def collapseWsAux : List Char → Bool → List Char
  | [], _ => []
  | c :: cs, prevWs =>
    if jsIsWhitespace c then
      if prevWs then collapseWsAux cs true else ' ' :: collapseWsAux cs true
    else c :: collapseWsAux cs false

/-- The first (try-block) cleanup of `extractJson`: extract a ```` ```json ````
fenced block when present (an unterminated fence yields the empty string,
since `substring(0, -1)` clamps), then `None` → `null`, newlines and
carriage returns to spaces, and whitespace-run collapse. -/
def extractJsonCleanup1 (content : String) : String :=
  let jsonContent :=
    match indexOfStr content ("\x60\x60\x60json") with
    | some startIdx =>
      let afterStart := substringFrom content (startIdx + 7)
      let endIdx := lastIndexOfStr afterStart ("\x60\x60\x60")
      jsTrim (substringTo afterStart (endIdx.getD 0))
    | none => jsTrim content
  let jsonContent := replaceAllStr jsonContent ("None") ("null")
  let jsonContent : String := ⟨jsonContent.data.map (fun c => if c = '\n' then ' ' else c)⟩
  let jsonContent : String := ⟨jsonContent.data.map (fun c => if c = '\r' then ' ' else c)⟩
  ⟨collapseWsAux jsonContent.data false⟩

/-- The second (catch-block) cleanup of `extractJson`: strip trailing commas
before `]` and `}` from the original content, then re-extract a fenced
block when present (otherwise the comma-cleaned content is parsed as-is,
untrimmed). -/
def extractJsonCleanup2 (content : String) : String :=
  let cleaned : List Char := stripCommaBefore '}' (stripCommaBefore ']' content.data)
  match indexOfAux (("\x60\x60\x60json").data) cleaned 0 with
  | some startIdx =>
    let afterStart := cleaned.drop (startIdx + 7)
    let endIdx := lastIndexOfAux (("\x60\x60\x60").data) afterStart 0 none
    ⟨trimChars (afterStart.take (endIdx.getD 0))⟩
  | none => ⟨cleaned⟩

/-- `extractJson`, parameterized by the host runtime's `JSON.parse` (modeled
as an arbitrary function that may fail).  The only fallible operations in
either `try` block are the two parses; every string transformation above is
total, so the function's result is the first successful parse, or the empty
object `{}` when both attempts fail. -/
def extractJson (parse : String → Except String Json) (content : String) : Json :=
  match parse (extractJsonCleanup1 content) with
  | .ok v => v
  | .error _ =>
    match parse (extractJsonCleanup2 content) with
    | .ok v => v
    | .error _ => Json.obj []

/- ======================= Generic helper lemmas =========================== -/

/-- The length of the child span: how many consecutive nodes at the front of a
list have level strictly greater than the parent's. -/
def spanLen (parentLevel : Nat) : List MarkdownNode → Nat
  | [] => 0
  | node :: rest => if node.level ≤ parentLevel then 0 else 1 + spanLen parentLevel rest

/-- The pre-order data the builder produces for a flat list, with the running
counter `c`: each section becomes one node carrying the counter's
zero-padded value as `nodeId`, its line number as `startIndex`, and its
text; `endIndex`, `summary` and `prefixSummary` stay absent. -/
def buildData (c : Nat) : List MarkdownNode → List NodeData
  | [] => []
  | nd :: rest =>
    ⟨nd.title, some (nodeIdString c), some nd.lineNum, none, none, none, nd.text⟩
      :: buildData (c + 1) rest

/-- Re-identification of a pre-order data list: entry `i` gets the zero-padded
id `k + i`. -/
def reIdData (k : Nat) : List NodeData → List NodeData
  | [] => []
  | d :: rest => { d with nodeId := some (nodeIdString k) } :: reIdData (k + 1) rest

/-- Per-node effect of `formatStructure` with the key orders used by
`mdToTree`: clear `endIndex`, clear `text` unless requested. -/
def fmtData (keepText : Bool) (d : NodeData) : NodeData :=
  { d with endIndex := none, text := if keepText then d.text else none }

/-- Emptiness of a child array. -/
def Forest.isNil : Forest → Bool
  | .nil => true
  | .cons _ _ => false

/-- Per-node view used to specify the summary write-back: the scalar data plus
the leaf flag (`!node.nodes || node.nodes.length === 0`). -/
def annData (t : TreeNode) : NodeData × Bool := (dataOf t, t.nodes.isNil)

/-- Specification-side assignment of the summary list along a pre-order data
list: entry `i` receives summary `i`, in `summary` for leaves and in
`prefixSummary` otherwise; entries beyond the summary list stay unchanged. -/
def assignAnn : List (NodeData × Bool) → List String → List (NodeData × Bool)
  | [], _ => []
  | p :: rest, [] => p :: assignAnn rest []
  | (d, isLeaf) :: rest, s :: ss =>
    ((if isLeaf then { d with summary := some s } else { d with prefixSummary := some s }), isLeaf)
      :: assignAnn rest ss

/-- Demo tree for the summarization exclusivity claim: one root with one
child, with no summary fields set. -/
def c7Demo : List TreeNode :=
  [.mk ("A") none none none none none none
    (.cons (.mk ("B") none none none none none none .nil) .nil)]

/-- The same tree after summarization with the below-threshold short-circuit
(each node's text summary is its own text, here the empty string). -/
def c7DemoOut : List TreeNode :=
  [.mk ("A") none none none none (some ("")) none
    (.cons (.mk ("B") none none none (some ("")) none none .nil) .nil)]

/-- A generation function that always succeeds. -/
def c7Llm : LLMFunction := fun _ => .ok ("S")

/-- A generation function that always rejects. -/
def c8Llm : LLMFunction := fun _ => .error ("boom")

/-- Options with the rejecting generation function and a zero summary
threshold, so every node issues a real request. -/
def c8Opts : MarkdownOptions := { llm := some c8Llm, summaryTokenThreshold := some 0 }

/-- The single node of the formatted tree for the document `"# A"`. -/
def c8Node : TreeNode := .mk ("A") (some ("0000")) (some 1) none none none (some ("# A")) .nil

/-- A parse function that always fails. -/
def c9Parse : String → Except String Json := fun _ => .error ("bad")

/-- Concatenation of the `text` of every tree node in pre-order. -/
def concatNodeTexts (ts : List TreeNode) : String :=
  ⟨((structureToList ts).map (fun t => ((t.text.getD ("")).data))).flatten⟩

/-- Concatenation of the `text` of every leaf node (via `getLeafNodes`) in
pre-order. -/
def concatLeafTexts (ts : List TreeNode) : String :=
  ⟨((getLeafNodes ts).map (fun d => ((d.text.getD ("")).data))).flatten⟩

/-- The document from the first materialized heading's line onward (the empty
string when no section is materialized). -/
def docTail (content : String) : String :=
  match (extractNodeTextContent (extractNodesFromMarkdown content).1
      (extractNodesFromMarkdown content).2).head? with
  | none => ("")
  | some h => joinLines ((extractNodesFromMarkdown content).2.drop (h.lineNum - 1))

/-- `spanLen` over a bare level sequence. -/
def spanLenL (parentLevel : Nat) : List Nat → Nat
  | [] => 0
  | lv :: rest => if lv ≤ parentLevel then 0 else 1 + spanLenL parentLevel rest

/-- The child-span boundary of position `i` with level `lvl` over a level
sequence: the first position after `i` whose level is `≤ lvl`, or the
sequence's length. -/
def bndL (i lvl : Nat) (lvls : List Nat) : Nat :=
  (i + 1) + spanLenL lvl (lvls.drop (i + 1))

/-- The level stored at a position (0 out of range). -/
def levelAt (lvls : List Nat) (m : Nat) : Nat := lvls.getD m 0

/-- The thinning loop's token read `currentNode.textTokenCount || 0`. -/
def tokOf (lst : List MarkdownNode) (j : Nat) : Nat :=
  ((lst[j]?).bind (fun nd => nd.textTokenCount)).getD 0

/-- The text read at a flat-list position (absent node or absent field read as
the empty string, matching `node.text || ''` accesses). -/
def textOf (lst : List MarkdownNode) (j : Nat) : String :=
  ((lst[j]?).bind (fun nd => nd.text)).getD ("")

/-- The level sequence of a flat section list. -/
def levelsOf (lst : List MarkdownNode) : List Nat := lst.map (fun nd => nd.level)

/-- Concatenation of the text fields of a flat section list. -/
def concatSecTexts (lst : List MarkdownNode) : List Char :=
  (lst.map (fun nd => (nd.text.getD ("")).data)).flatten

/-- Whitespace-stripped concatenation of the texts of the positions of `lst`
not marked in `rem` (the thinning loop's running survivors). -/
def swConcat (lst : List MarkdownNode) (rem : List Nat) : List Char :=
  (((List.range lst.length).filter (fun j => decide (¬ j ∈ rem))).map
    (fun j => stripWsChars (textOf lst j).data)).flatten

def c5Parent : MarkdownNode := ⟨("Parent"), 1, 1, some ("own"), some 7⟩

def c5List : List MarkdownNode :=
  [c5Parent, ⟨("Child"), 2, 2, some ("body"), some 7⟩]

theorem stripWsChars_append (a b : List Char) :
    stripWsChars (a ++ b) = stripWsChars a ++ stripWsChars b := by
  simp [stripWsChars, List.filter_append]

theorem stripWsChars_dropWhile_ws (l : List Char) :
    stripWsChars (l.dropWhile jsIsWhitespace) = stripWsChars l := by
  induction l with
  | nil => rfl
  | cons c cs ih =>
    by_cases h : jsIsWhitespace c
    · simpa [List.dropWhile, stripWsChars, List.filter, h] using ih
    · simp [List.dropWhile, stripWsChars, List.filter, h]

theorem stripWsChars_reverse (l : List Char) :
    stripWsChars l.reverse = (stripWsChars l).reverse := by
  simp [stripWsChars, List.filter_reverse]

theorem stripWsChars_trimChars (l : List Char) :
    stripWsChars (trimChars l) = stripWsChars l := by
  unfold trimChars
  rw [stripWsChars_reverse, stripWsChars_dropWhile_ws, stripWsChars_reverse,
    List.reverse_reverse, stripWsChars_dropWhile_ws]

theorem stripWsChars_nil_of_trim_nil (l : List Char) (h : trimChars l = []) :
    stripWsChars l = [] := by
  have := stripWsChars_trimChars l
  rw [h] at this
  exact this.symm

theorem stripWsChars_joinWithNl (ls : List (List Char)) :
    stripWsChars (joinWithNl ls) = (ls.map stripWsChars).flatten := by
  match ls with
  | [] => rfl
  | [l] => simp [joinWithNl]
  | l :: l2 :: rest =>
    have ih := stripWsChars_joinWithNl (l2 :: rest)
    simp only [joinWithNl, List.map, List.flatten] at ih ⊢
    rw [stripWsChars_append]
    have : stripWsChars ('\n' :: joinWithNl (l2 :: rest)) = stripWsChars (joinWithNl (l2 :: rest)) := by
      simp [stripWsChars, List.filter, jsIsWhitespace]
    rw [this, ih]

/- ============== `findAllChildren` is a contiguous range ================== -/

theorem findAllChildrenGo_eq_range' (parentLevel : Nat) (l : List MarkdownNode) (i : Nat) :
    findAllChildrenGo parentLevel l i = List.range' i (spanLen parentLevel l) := by
  induction l generalizing i with
  | nil => rfl
  | cons node rest ih =>
    by_cases h : node.level ≤ parentLevel
    · simp [findAllChildrenGo, spanLen, h]
    · simp only [findAllChildrenGo, spanLen, h, if_false, if_neg h]
      rw [ih (i + 1)]
      have : 1 + spanLen parentLevel rest = spanLen parentLevel rest + 1 := Nat.add_comm _ _
      rw [this, List.range'_succ]

theorem findAllChildren_eq_range' (parentIndex parentLevel : Nat) (nodeList : List MarkdownNode) :
    findAllChildren parentIndex parentLevel nodeList =
      List.range' (parentIndex + 1) (spanLen parentLevel (nodeList.drop (parentIndex + 1))) := by
  unfold findAllChildren
  exact findAllChildrenGo_eq_range' _ _ _

/- ============= Pre-order flattening of the built tree ==================== -/

theorem structureToListT_eq (t : TreeNode) :
    structureToListT t = t :: structureToListF t.nodes := by
  cases t
  rfl

theorem structureToList_append (ts us : List TreeNode) :
    structureToList (ts ++ us) = structureToList ts ++ structureToList us := by
  induction ts with
  | nil => rfl
  | cons t ts ih => simp [structureToList, ih]

theorem structureToListF_push : ∀ (f : Forest) (t : TreeNode),
    structureToListF (f.push t) = structureToListF f ++ structureToListT t
  | .nil, t => by simp [Forest.push, structureToListF]
  | .cons x xs, t => by simp [Forest.push, structureToListF, structureToListF_push xs t]

theorem dataOf_pushChild (t c : TreeNode) : dataOf (pushChild t c) = dataOf t := by
  cases t
  rfl

theorem nodes_pushChild (t c : TreeNode) : (pushChild t c).nodes = Forest.push t.nodes c := by
  cases t
  rfl

/-- Flushing a finished child through the open chain appends exactly that
child's pre-order data at the end of the flattening of the state. -/
theorem chain_eq : ∀ (stack : List BuildEntry) (child : TreeNode) (roots : List TreeNode),
    (structureToList (flushChain child roots stack)).map dataOf
      = (structureToList (flushAll roots stack)).map dataOf
        ++ dataOf child :: (structureToListF child.nodes).map dataOf
  | [], child, roots => by
    simp [flushChain, flushAll, structureToList_append, structureToList,
      structureToListT_eq child]
  | e :: stack, child, roots => by
    have ih1 := chain_eq stack (pushChild e.node child) roots
    have ih2 := chain_eq stack e.node roots
    show (structureToList (flushChain (pushChild e.node child) roots stack)).map dataOf = _
    rw [ih1, dataOf_pushChild, nodes_pushChild, structureToListF_push, structureToListT_eq child]
    show _ = (structureToList (flushChain e.node roots stack)).map dataOf ++ _
    rw [ih2]
    simp

/-- Popping with deferred attachments commutes with flushing. -/
theorem popAttach_flush : ∀ (stack : List BuildEntry) (lvl : Nat) (child : TreeNode)
    (roots : List TreeNode),
    flushAll (popAttach lvl child roots stack).1 (popAttach lvl child roots stack).2
      = flushChain child roots stack
  | [], _, _, _ => rfl
  | e :: stack, lvl, child, roots => by
    by_cases h : lvl ≤ e.level
    · have heq : popAttach lvl child roots (e :: stack)
          = popAttach lvl (pushChild e.node child) roots stack := by
        simp [popAttach, h]
      rw [heq]
      exact popAttach_flush stack lvl (pushChild e.node child) roots
    · have heq : popAttach lvl child roots (e :: stack)
          = (roots, { node := pushChild e.node child, level := e.level } :: stack) := by
        simp [popAttach, h]
      rw [heq]
      rfl

/-- The builder's pop loop does not change the value of the flushed state. -/
theorem popGE_flush (stack : List BuildEntry) (lvl : Nat) (roots : List TreeNode) :
    flushAll (popGE lvl roots stack).1 (popGE lvl roots stack).2 = flushAll roots stack := by
  cases stack with
  | nil => rfl
  | cons e stack =>
    by_cases h : lvl ≤ e.level
    · simp only [popGE, h, if_true]
      exact popAttach_flush stack lvl e.node roots
    · simp only [popGE, h, if_false]

theorem build_fold : ∀ (l : List MarkdownNode) (roots : List TreeNode)
    (stack : List BuildEntry) (c : Nat),
    (structureToList (flushAll (l.foldl buildStep ((roots, stack), c)).1.1
        (l.foldl buildStep ((roots, stack), c)).1.2)).map dataOf
      = (structureToList (flushAll roots stack)).map dataOf ++ buildData c l
  | [], roots, stack, c => by simp [buildData]
  | nd :: rest, roots, stack, c => by
    have ih := build_fold rest (popGE nd.level roots stack).1
      ({ node := .mk nd.title (some (nodeIdString c)) (some nd.lineNum) none none none nd.text .nil,
         level := nd.level } :: (popGE nd.level roots stack).2) (c + 1)
    show (structureToList (flushAll (List.foldl buildStep _ rest).1.1
        (List.foldl buildStep _ rest).1.2)).map dataOf = _
    rw [show (List.foldl buildStep (buildStep ((roots, stack), c) nd) rest)
        = (List.foldl buildStep
            (((popGE nd.level roots stack).1,
              { node := .mk nd.title (some (nodeIdString c)) (some nd.lineNum) none none none nd.text .nil,
                level := nd.level } :: (popGE nd.level roots stack).2), c + 1) rest) from rfl]
    rw [ih]
    have hf : flushAll (popGE nd.level roots stack).1
        ({ node := TreeNode.mk nd.title (some (nodeIdString c)) (some nd.lineNum) none none none nd.text .nil,
           level := nd.level } :: (popGE nd.level roots stack).2)
        = flushChain (.mk nd.title (some (nodeIdString c)) (some nd.lineNum) none none none nd.text .nil)
            (popGE nd.level roots stack).1 (popGE nd.level roots stack).2 := rfl
    rw [hf, chain_eq, popGE_flush]
    simp [buildData, dataOf, TreeNode.nodes, structureToListF]

/-- `buildTreeFromNodes` flattens back, in pre-order, to exactly the input
list's data, with the builder's 1-based zero-padded identifiers. -/
theorem buildTree_dataOf (l : List MarkdownNode) :
    (structureToList (buildTreeFromNodes l)).map dataOf = buildData 1 l := by
  have := build_fold l [] [] 1
  simpa [buildTreeFromNodes, flushAll, structureToList] using this

/- ================== Identifier pass: specification ======================= -/

theorem reIdData_append (k : Nat) (a b : List NodeData) :
    reIdData k (a ++ b) = reIdData k a ++ reIdData (k + a.length) b := by
  induction a generalizing k with
  | nil => simp [reIdData]
  | cons d rest ih =>
    have h3 : k + 1 + rest.length = k + (rest.length + 1) := by omega
    calc reIdData k ((d :: rest) ++ b)
        = { d with nodeId := some (nodeIdString k) } :: reIdData (k + 1) (rest ++ b) := rfl
      _ = { d with nodeId := some (nodeIdString k) }
            :: (reIdData (k + 1) rest ++ reIdData (k + 1 + rest.length) b) := by rw [ih (k + 1)]
      _ = ({ d with nodeId := some (nodeIdString k) } :: reIdData (k + 1) rest)
            ++ reIdData (k + (rest.length + 1)) b := by rw [h3]; rfl
      _ = reIdData k (d :: rest) ++ reIdData (k + (d :: rest).length) b := rfl

mutual
theorem writeNodeIdT_spec : ∀ (t : TreeNode) (k : Nat),
    (structureToListT (writeNodeIdT t k).1).map dataOf
        = reIdData k ((structureToListT t).map dataOf)
      ∧ (writeNodeIdT t k).2 = k + (structureToListT t).length
  | .mk a b c d e f g ns, k => by
    have ih := writeNodeIdF_spec ns (k + 1)
    constructor
    · show dataOf (.mk a (some (nodeIdString k)) c d e f g (writeNodeIdF ns (k + 1)).1)
          :: (structureToListF (writeNodeIdF ns (k + 1)).1).map dataOf
        = reIdData k (dataOf (.mk a b c d e f g ns) :: (structureToListF ns).map dataOf)
      rw [ih.1]
      rfl
    · show (writeNodeIdF ns (k + 1)).2 = k + (TreeNode.mk a b c d e f g ns :: structureToListF ns).length
      rw [ih.2]
      simp only [List.length_cons]
      omega
theorem writeNodeIdF_spec : ∀ (f : Forest) (k : Nat),
    (structureToListF (writeNodeIdF f k).1).map dataOf
        = reIdData k ((structureToListF f).map dataOf)
      ∧ (writeNodeIdF f k).2 = k + (structureToListF f).length
  | .nil, k => by simp [writeNodeIdF, structureToListF, reIdData]
  | .cons t ts, k => by
    have ih1 := writeNodeIdT_spec t k
    have ih2 := writeNodeIdF_spec ts (k + (structureToListT t).length)
    constructor
    · show (structureToListT (writeNodeIdT t k).1
            ++ structureToListF (writeNodeIdF ts (writeNodeIdT t k).2).1).map dataOf
        = reIdData k ((structureToListT t ++ structureToListF ts).map dataOf)
      rw [List.map_append, List.map_append, ih1.2, reIdData_append, List.length_map,
        ih1.1, ih2.1]
    · show (writeNodeIdF ts (writeNodeIdT t k).2).2
          = k + (structureToListT t ++ structureToListF ts).length
      rw [ih1.2, ih2.2, List.length_append]
      omega
end

theorem writeNodeIdRoots_spec : ∀ (ts : List TreeNode) (k : Nat),
    (structureToList (writeNodeIdRoots ts k).1).map dataOf
        = reIdData k ((structureToList ts).map dataOf)
      ∧ (writeNodeIdRoots ts k).2 = k + (structureToList ts).length
  | [], k => by simp [writeNodeIdRoots, structureToList, reIdData]
  | t :: ts, k => by
    have ih1 := writeNodeIdT_spec t k
    have ih2 := writeNodeIdRoots_spec ts (k + (structureToListT t).length)
    constructor
    · show (structureToListT (writeNodeIdT t k).1
            ++ structureToList (writeNodeIdRoots ts (writeNodeIdT t k).2).1).map dataOf
        = reIdData k ((structureToListT t ++ structureToList ts).map dataOf)
      rw [List.map_append, List.map_append, ih1.2, reIdData_append, List.length_map,
        ih1.1, ih2.1]
    · show (writeNodeIdRoots ts (writeNodeIdT t k).2).2
          = k + (structureToListT t ++ structureToList ts).length
      rw [ih1.2, ih2.2, List.length_append]
      omega

/- ================== Key-order formatting: specification ================== -/

mutual
theorem formatStructureT_spec : ∀ (keep : Bool) (t : TreeNode),
    (structureToListT (formatStructureT keep t)).map dataOf
      = ((structureToListT t).map dataOf).map (fmtData keep)
  | keep, .mk a b c d e f g ns => by
    have ih := formatStructureF_spec keep ns
    simp only [formatStructureT, structureToListT, List.map_cons, ih]
    rfl
theorem formatStructureF_spec : ∀ (keep : Bool) (f : Forest),
    (structureToListF (formatStructureF keep f)).map dataOf
      = ((structureToListF f).map dataOf).map (fmtData keep)
  | _, .nil => by simp [formatStructureF, structureToListF]
  | keep, .cons t ts => by
    have ih1 := formatStructureT_spec keep t
    have ih2 := formatStructureF_spec keep ts
    simp only [formatStructureF, structureToListF, List.map_append, ih1, ih2]
end

theorem formatStructureRoots_spec : ∀ (keep : Bool) (ts : List TreeNode),
    (structureToList (formatStructureRoots keep ts)).map dataOf
      = ((structureToList ts).map dataOf).map (fmtData keep)
  | _, [] => by simp [formatStructureRoots, structureToList]
  | keep, t :: ts => by
    have ih1 := formatStructureT_spec keep t
    have ih2 := formatStructureRoots_spec keep ts
    simp only [formatStructureRoots, structureToList, List.map_append, ih1, ih2]

/- ================ Summary write-back: specification ====================== -/

theorem assignAnn_nil : ∀ (L : List (NodeData × Bool)), assignAnn L [] = L
  | [] => rfl
  | p :: rest => by
    show p :: assignAnn rest [] = p :: rest
    rw [assignAnn_nil rest]

theorem assignAnn_append : ∀ (a b : List (NodeData × Bool)) (ss : List String),
    assignAnn (a ++ b) ss = assignAnn a ss ++ assignAnn b (ss.drop a.length)
  | [], b, ss => by simp [assignAnn]
  | p :: rest, b, [] => by
    show p :: assignAnn (rest ++ b) [] = (p :: assignAnn rest []) ++ assignAnn b []
    rw [assignAnn_nil, assignAnn_nil, assignAnn_nil]
    rfl
  | (d, isLeaf) :: rest, b, s :: ss => by
    show _ :: assignAnn (rest ++ b) ss = (_ :: assignAnn rest ss) ++ assignAnn b (ss.drop rest.length)
    rw [assignAnn_append rest b ss]
    rfl

mutual
theorem writeBackT_spec : ∀ (t : TreeNode) (ss : List String),
    (structureToListT (writeBackT t ss).1).map annData
        = assignAnn ((structureToListT t).map annData) ss
      ∧ (writeBackT t ss).2 = ss.drop (structureToListT t).length
  | .mk a b c d e f g ns, [] => by
    constructor
    · show (structureToListT (.mk a b c d e f g ns)).map annData
        = assignAnn ((structureToListT (.mk a b c d e f g ns)).map annData) []
      rw [assignAnn_nil]
    · show ([] : List String) = List.drop (structureToListT (.mk a b c d e f g ns)).length []
      rw [List.drop_nil]
  | .mk a b c d e f g .nil, s :: ss => by
    constructor
    · rfl
    · rfl
  | .mk a b c d e f g (.cons x xs), s :: ss => by
    have ih := writeBackF_spec (.cons x xs) ss
    constructor
    · show annData (.mk a b c d e (some s) g (writeBackF (.cons x xs) ss).1)
          :: (structureToListF (writeBackF (.cons x xs) ss).1).map annData
        = assignAnn (annData (.mk a b c d e f g (.cons x xs))
            :: (structureToListF (.cons x xs)).map annData) (s :: ss)
      rw [ih.1]
      rfl
    · show (writeBackF (.cons x xs) ss).2
          = (s :: ss).drop (structureToListT (.mk a b c d e f g (.cons x xs))).length
      rw [ih.2]
      rfl
theorem writeBackF_spec : ∀ (f : Forest) (ss : List String),
    (structureToListF (writeBackF f ss).1).map annData
        = assignAnn ((structureToListF f).map annData) ss
      ∧ (writeBackF f ss).2 = ss.drop (structureToListF f).length
  | .nil, ss => by
    constructor
    · rfl
    · show ss = ss.drop 0
      rw [List.drop_zero]
  | .cons t ts, ss => by
    have ih1 := writeBackT_spec t ss
    have ih2 := writeBackF_spec ts (writeBackT t ss).2
    constructor
    · show (structureToListT (writeBackT t ss).1
            ++ structureToListF (writeBackF ts (writeBackT t ss).2).1).map annData
        = assignAnn ((structureToListT t ++ structureToListF ts).map annData) ss
      rw [List.map_append, List.map_append, assignAnn_append, List.length_map,
        ih1.1, ih2.1, ih1.2]
    · show (writeBackF ts (writeBackT t ss).2).2
          = ss.drop (structureToListT t ++ structureToListF ts).length
      rw [ih2.2, ih1.2, List.drop_drop, List.length_append]
end

theorem writeBackRoots_spec : ∀ (ts : List TreeNode) (ss : List String),
    (structureToList (writeBackRoots ts ss).1).map annData
        = assignAnn ((structureToList ts).map annData) ss
      ∧ (writeBackRoots ts ss).2 = ss.drop (structureToList ts).length
  | [], ss => by
    constructor
    · rfl
    · show ss = ss.drop 0
      rw [List.drop_zero]
  | t :: ts, ss => by
    have ih1 := writeBackT_spec t ss
    have ih2 := writeBackRoots_spec ts (writeBackT t ss).2
    constructor
    · show (structureToListT (writeBackT t ss).1
            ++ structureToList (writeBackRoots ts (writeBackT t ss).2).1).map annData
        = assignAnn ((structureToListT t ++ structureToList ts).map annData) ss
      rw [List.map_append, List.map_append, assignAnn_append, List.length_map,
        ih1.1, ih2.1, ih1.2]
    · show (writeBackRoots ts (writeBackT t ss).2).2
          = ss.drop (structureToListT t ++ structureToList ts).length
      rw [ih2.2, ih1.2, List.drop_drop, List.length_append]

/- =================== Projection and length helpers ======================= -/

theorem dataOf_nodeId (t : TreeNode) : (dataOf t).nodeId = t.nodeId := by
  cases t
  rfl

theorem dataOf_summary (t : TreeNode) : (dataOf t).summary = t.summary := by
  cases t
  rfl

theorem dataOf_prefixSummary (t : TreeNode) : (dataOf t).prefixSummary = t.prefixSummary := by
  cases t
  rfl

theorem dataOf_text (t : TreeNode) : (dataOf t).text = t.text := by
  cases t
  rfl

theorem buildData_length : ∀ (c : Nat) (l : List MarkdownNode), (buildData c l).length = l.length
  | _, [] => rfl
  | c, _ :: rest => by
    show (buildData (c + 1) rest).length + 1 = rest.length + 1
    rw [buildData_length (c + 1) rest]

theorem buildData_nodeId : ∀ (c : Nat) (l : List MarkdownNode),
    (buildData c l).map (fun d => d.nodeId)
      = (List.range' c l.length).map (fun i => some (nodeIdString i))
  | _, [] => rfl
  | c, nd :: rest => by
    show some (nodeIdString c) :: (buildData (c + 1) rest).map (fun d => d.nodeId)
      = _ :: (List.range' (c + 1) rest.length).map (fun i => some (nodeIdString i))
    rw [buildData_nodeId (c + 1) rest]

theorem buildData_text : ∀ (c : Nat) (l : List MarkdownNode),
    (buildData c l).map (fun d => d.text) = l.map (fun nd => nd.text)
  | _, [] => rfl
  | c, nd :: rest => by
    show nd.text :: (buildData (c + 1) rest).map (fun d => d.text) = nd.text :: _
    rw [buildData_text (c + 1) rest]

theorem buildData_summaries_none : ∀ (c : Nat) (l : List MarkdownNode) (d : NodeData),
    d ∈ buildData c l → d.summary = none ∧ d.prefixSummary = none
  | c, nd :: rest, d, h => by
    rcases List.mem_cons.mp h with rfl | h
    · exact ⟨rfl, rfl⟩
    · exact buildData_summaries_none (c + 1) rest d h

theorem reIdData_length : ∀ (k : Nat) (L : List NodeData), (reIdData k L).length = L.length
  | _, [] => rfl
  | k, _ :: rest => by
    show (reIdData (k + 1) rest).length + 1 = rest.length + 1
    rw [reIdData_length (k + 1) rest]

theorem reIdData_nodeId : ∀ (k : Nat) (L : List NodeData),
    (reIdData k L).map (fun d => d.nodeId)
      = (List.range' k L.length).map (fun i => some (nodeIdString i))
  | _, [] => rfl
  | k, d :: rest => by
    show some (nodeIdString k) :: (reIdData (k + 1) rest).map (fun x => x.nodeId) = _
    rw [reIdData_nodeId (k + 1) rest]
    rfl

theorem reIdData_mem : ∀ (k : Nat) (L : List NodeData) (d : NodeData), d ∈ reIdData k L →
    ∃ d₀, d₀ ∈ L ∧ d.summary = d₀.summary ∧ d.prefixSummary = d₀.prefixSummary
      ∧ d.text = d₀.text
  | k, d₀ :: rest, d, h => by
    rcases List.mem_cons.mp h with rfl | h
    · exact ⟨d₀, List.mem_cons_self _ _, rfl, rfl, rfl⟩
    · obtain ⟨d₁, hmem, hs⟩ := reIdData_mem (k + 1) rest d h
      exact ⟨d₁, List.mem_cons_of_mem _ hmem, hs⟩

theorem fmtData_nodeId (keep : Bool) (d : NodeData) : (fmtData keep d).nodeId = d.nodeId := rfl

theorem fmtData_summary (keep : Bool) (d : NodeData) : (fmtData keep d).summary = d.summary := rfl

theorem fmtData_prefixSummary (keep : Bool) (d : NodeData) :
    (fmtData keep d).prefixSummary = d.prefixSummary := rfl

theorem assignAnn_length : ∀ (L : List (NodeData × Bool)) (ss : List String),
    (assignAnn L ss).length = L.length
  | [], _ => rfl
  | p :: rest, [] => by
    show (assignAnn rest []).length + 1 = rest.length + 1
    rw [assignAnn_length rest []]
  | (d, isLeaf) :: rest, s :: ss => by
    show (assignAnn rest ss).length + 1 = rest.length + 1
    rw [assignAnn_length rest ss]

theorem assignAnn_nodeId : ∀ (L : List (NodeData × Bool)) (ss : List String),
    (assignAnn L ss).map (fun q => q.1.nodeId) = L.map (fun p => p.1.nodeId)
  | [], _ => rfl
  | p :: rest, [] => by
    simp only [assignAnn, List.map_cons, assignAnn_nodeId rest []]
  | (d, isLeaf) :: rest, s :: ss => by
    simp only [assignAnn, List.map_cons, assignAnn_nodeId rest ss]
    by_cases h : isLeaf <;> simp [h]

/-- Assigned entries carry exactly one summary field, matching the leaf flag,
provided the inputs carry none and there are enough summaries. -/
theorem assignAnn_mem_spec : ∀ (L : List (NodeData × Bool)) (ss : List String),
    L.length ≤ ss.length →
    (∀ p ∈ L, p.1.summary = none ∧ p.1.prefixSummary = none) →
    ∀ q ∈ assignAnn L ss,
      (q.2 = true → (q.1.summary).isSome ∧ q.1.prefixSummary = none)
        ∧ (q.2 = false → q.1.summary = none ∧ (q.1.prefixSummary).isSome)
  | [], _, _, _, q, hq => by cases hq
  | p :: rest, [], hlen, _, q, hq => by
    simp at hlen
  | (d, isLeaf) :: rest, s :: ss, hlen, hclean, q, hq => by
    rcases List.mem_cons.mp hq with rfl | hq
    · have hd := hclean (d, isLeaf) (List.mem_cons_self _ _)
      by_cases h : isLeaf <;>
        simp only [h, if_true, Bool.false_eq_true, if_false] <;>
        constructor <;> intro hflag <;>
        simp_all
    · exact assignAnn_mem_spec rest ss (by simpa using Nat.le_of_succ_le_succ hlen)
        (fun p hp => hclean p (List.mem_cons_of_mem _ hp)) q hq

/- ========================= `awaitAll` lemmas ============================= -/

theorem awaitAll_ok_length : ∀ (f : TreeNode → Except String String) (l : List TreeNode)
    (ss : List String), awaitAll f l = .ok ss → ss.length = l.length
  | f, [], ss, h => by
    simp [awaitAll] at h
    simp [← h]
  | f, x :: rest, ss, h => by
    unfold awaitAll at h
    cases hfx : f x with
    | error e => rw [hfx] at h; cases h
    | ok s =>
      rw [hfx] at h
      cases hrest : awaitAll f rest with
      | error e => rw [hrest] at h; cases h
      | ok ss' =>
        rw [hrest] at h
        cases h
        have := awaitAll_ok_length f rest ss' hrest
        simp [this]

theorem awaitAll_error_of_mem : ∀ (f : TreeNode → Except String String) (l : List TreeNode)
    (x : TreeNode) (e : String), x ∈ l → f x = .error e →
    ∃ e', awaitAll f l = .error e'
  | f, y :: rest, x, e, hmem, hfx => by
    rcases List.mem_cons.mp hmem with rfl | hmem
    · exact ⟨e, by simp [awaitAll, hfx]⟩
    · obtain ⟨e', h⟩ := awaitAll_error_of_mem f rest x e hmem hfx
      cases hfy : f y with
      | error e2 => exact ⟨e2, by simp [awaitAll, hfy]⟩
      | ok s => exact ⟨e', by simp [awaitAll, hfy, h]⟩

/- ===================== `mdToTree` plumbing lemmas ======================== -/

theorem addDocDescription_structure (config : ResolvedMarkdownConfig) (r r' : PageIndexResult)
    (h : addDocDescription config r = .ok r') : r'.structure' = r.structure' := by
  unfold addDocDescription at h
  split at h
  · split at h
    · split at h
      · exact Except.noConfusion h
      · cases h
        rfl
    · cases h
      rfl
  · cases h
    rfl

/-- `t.nodeId` read off a flattened list equals the projection of its data. -/
theorem map_nodeId_eq_dataOf (ts : List TreeNode) :
    (structureToList ts).map (fun t => t.nodeId)
      = ((structureToList ts).map dataOf).map (fun d => d.nodeId) := by
  rw [List.map_map]
  apply List.map_congr_left
  intro t _
  exact (dataOf_nodeId t).symm

/-- `t.text` read off a flattened list equals the projection of its data. -/
theorem map_text_eq_dataOf (ts : List TreeNode) :
    (structureToList ts).map (fun t => t.text)
      = ((structureToList ts).map dataOf).map (fun d => d.text) := by
  rw [List.map_map]
  apply List.map_congr_left
  intro t _
  exact (dataOf_text t).symm

/- ============== Summary-field emptiness along the pipeline =============== -/

theorem mdTreeWithIds_summaries_none (content : String) (config : ResolvedMarkdownConfig) :
    ∀ d ∈ (structureToList (mdTreeWithIds content config)).map dataOf,
      d.summary = none ∧ d.prefixSummary = none := by
  intro d hd
  cases hid : config.ifAddNodeId
  · simp only [mdTreeWithIds, hid, Bool.false_eq_true, if_false] at hd
    rw [buildTree_dataOf] at hd
    exact buildData_summaries_none _ _ _ hd
  · simp only [mdTreeWithIds, hid, if_true] at hd
    rw [(writeNodeIdRoots_spec (buildTreeFromNodes (mdFlatNodes content config)) 0).1,
      buildTree_dataOf] at hd
    obtain ⟨d₀, hmem, hsum, hpre, _⟩ := reIdData_mem _ _ _ hd
    have := buildData_summaries_none _ _ _ hmem
    exact ⟨hsum.trans this.1, hpre.trans this.2⟩

theorem formatRoots_summaries_none (keep : Bool) (ts : List TreeNode)
    (h : ∀ d ∈ (structureToList ts).map dataOf, d.summary = none ∧ d.prefixSummary = none) :
    ∀ t ∈ structureToList (formatStructureRoots keep ts),
      t.summary = none ∧ t.prefixSummary = none := by
  intro t ht
  have hdt : dataOf t ∈ (structureToList (formatStructureRoots keep ts)).map dataOf :=
    List.mem_map_of_mem dataOf ht
  rw [formatStructureRoots_spec] at hdt
  obtain ⟨d, hd, hfd⟩ := List.mem_map.mp hdt
  have hnone := h d hd
  constructor
  · rw [← dataOf_summary t, ← hfd, fmtData_summary]
    exact hnone.1
  · rw [← dataOf_prefixSummary t, ← hfd, fmtData_prefixSummary]
    exact hnone.2

/-- C3 (amended): with the generation function absent, `mdToTree` never fails;
it returns a result whose nodes carry no summary fields. -/
theorem mdToTree_no_llm_ok (content docName : String) (options : MarkdownOptions)
    (hllm : options.llm = none) :
    ∃ r, mdToTree content docName options = .ok r
      ∧ ∀ t ∈ structureToList r.structure', t.summary = none ∧ t.prefixSummary = none := by
  have hcfg : (loadMarkdownConfig options).llm = none := hllm
  refine ⟨{ docName := docName,
            structure' := formatStructureRoots (loadMarkdownConfig options).ifAddNodeText
              (mdTreeWithIds content (loadMarkdownConfig options)) }, ?_, ?_⟩
  · cases hb : (loadMarkdownConfig options).ifAddNodeSummary <;>
      simp only [mdToTree, hcfg, hb, addDocDescription]
  · exact formatRoots_summaries_none _ _ (mdTreeWithIds_summaries_none content _)

/- =================== C7/C8 core: summarization =========================== -/

/-- C7 core: on a tree whose nodes carry no summary fields, a successful
summarization sets exactly one of `summary`/`prefixSummary` on every node,
chosen by whether the node has children. -/
theorem generateSummaries_exclusive (structure' : List TreeNode) (thr : Nat)
    (llm : LLMFunction) (out : List TreeNode)
    (hclean : ∀ t ∈ structureToList structure', t.summary = none ∧ t.prefixSummary = none)
    (hok : generateSummariesForStructureMd structure' thr llm = .ok out) :
    ∀ t ∈ structureToList out,
      (t.nodes.isNil = true → (t.summary).isSome ∧ t.prefixSummary = none)
        ∧ (t.nodes.isNil = false → t.summary = none ∧ (t.prefixSummary).isSome) := by
  unfold generateSummariesForStructureMd at hok
  dsimp only at hok
  cases hawait : awaitAll (fun node => getNodeSummary node thr llm) (structureToList structure') with
  | error e => rw [hawait] at hok; exact Except.noConfusion hok
  | ok summaries =>
    rw [hawait] at hok
    cases hok
    have hlen := awaitAll_ok_length _ _ _ hawait
    intro t ht
    have hann : annData t ∈ (structureToList (writeBackRoots structure' summaries).1).map
        annData := List.mem_map_of_mem annData ht
    rw [(writeBackRoots_spec structure' summaries).1] at hann
    have hspec := assignAnn_mem_spec ((structureToList structure').map annData) summaries
      (by rw [List.length_map, hlen])
      (by
        intro p hp
        obtain ⟨t₀, ht₀, rfl⟩ := List.mem_map.mp hp
        have := hclean t₀ ht₀
        exact ⟨(dataOf_summary t₀).trans this.1, (dataOf_prefixSummary t₀).trans this.2⟩)
      (annData t) hann
    constructor
    · intro hleaf
      have := hspec.1 hleaf
      exact ⟨by rw [← dataOf_summary t]; exact this.1,
        by rw [← dataOf_prefixSummary t]; exact this.2⟩
    · intro hnotleaf
      have := hspec.2 hnotleaf
      exact ⟨by rw [← dataOf_summary t]; exact this.1,
        by rw [← dataOf_prefixSummary t]; exact this.2⟩

/-- C8 core: one failing node request makes the whole conversion fail. -/
theorem mdToTree_error_of_summary_error (content docName : String) (options : MarkdownOptions)
    (llm : LLMFunction) (node : TreeNode) (e : String)
    (hllm : (loadMarkdownConfig options).llm = some llm)
    (hs : (loadMarkdownConfig options).ifAddNodeSummary = true)
    (hmem : node ∈ structureToList
      (formatStructureRoots true (mdTreeWithIds content (loadMarkdownConfig options))))
    (herr : getNodeSummary node (loadMarkdownConfig options).summaryTokenThreshold llm
      = .error e) :
    ∃ e', mdToTree content docName options = .error e' := by
  obtain ⟨e', hawait⟩ := awaitAll_error_of_mem
    (fun n => getNodeSummary n (loadMarkdownConfig options).summaryTokenThreshold llm)
    _ node e hmem herr
  refine ⟨e', ?_⟩
  have hgen : generateSummariesForStructureMd
      (formatStructureRoots true (mdTreeWithIds content (loadMarkdownConfig options)))
      (loadMarkdownConfig options).summaryTokenThreshold llm = .error e' := by
    unfold generateSummariesForStructureMd
    dsimp only
    rw [hawait]
  simp only [mdToTree, hllm, hs, hgen]

/- ======================= C6/C10 projection chain ========================= -/

theorem nodeId_proj_format (keep : Bool) (ts : List TreeNode) :
    (structureToList (formatStructureRoots keep ts)).map (fun t => t.nodeId)
      = (structureToList ts).map (fun t => t.nodeId) := by
  rw [map_nodeId_eq_dataOf, formatStructureRoots_spec, map_nodeId_eq_dataOf ts, List.map_map]
  apply List.map_congr_left
  intro d _
  rfl

theorem nodeId_proj_writeBack (ts : List TreeNode) (ss : List String) :
    (structureToList (writeBackRoots ts ss).1).map (fun t => t.nodeId)
      = (structureToList ts).map (fun t => t.nodeId) := by
  have h := congrArg (List.map (fun q : NodeData × Bool => q.1.nodeId))
    (writeBackRoots_spec ts ss).1
  rw [assignAnn_nodeId, List.map_map, List.map_map] at h
  have h1 : (structureToList (writeBackRoots ts ss).1).map
      ((fun q : NodeData × Bool => q.1.nodeId) ∘ annData)
      = (structureToList (writeBackRoots ts ss).1).map (fun t => t.nodeId) := by
    apply List.map_congr_left
    intro t _
    exact dataOf_nodeId t
  have h2 : (structureToList ts).map ((fun q : NodeData × Bool => q.1.nodeId) ∘ annData)
      = (structureToList ts).map (fun t => t.nodeId) := by
    apply List.map_congr_left
    intro t _
    exact dataOf_nodeId t
  rw [h1, h2] at h
  exact h

/-- The pre-order `nodeId` sequence of `mdToTree`'s result equals that of the
tree right after the (optional) identifier pass: neither formatting,
summarization, nor the description step changes or removes identifiers. -/
theorem mdToTree_nodeId_proj (content docName : String) (options : MarkdownOptions)
    (r : PageIndexResult) (hok : mdToTree content docName options = .ok r) :
    (structureToList r.structure').map (fun t => t.nodeId)
      = (structureToList (mdTreeWithIds content (loadMarkdownConfig options))).map
          (fun t => t.nodeId) := by
  unfold mdToTree at hok
  dsimp only at hok
  split at hok
  · rename_i llm hs' hllm'
    cases hgen : generateSummariesForStructureMd
        (formatStructureRoots true (mdTreeWithIds content (loadMarkdownConfig options)))
        (loadMarkdownConfig options).summaryTokenThreshold llm with
    | error e =>
      rw [hgen] at hok
      exact Except.noConfusion hok
    | ok summarized =>
      rw [hgen] at hok
      have hstruct := addDocDescription_structure _ _ _ hok
      rw [hstruct]
      have hsum : ∃ ss, summarized = (writeBackRoots
          (formatStructureRoots true (mdTreeWithIds content (loadMarkdownConfig options)))
          ss).1 := by
        unfold generateSummariesForStructureMd at hgen
        dsimp only at hgen
        cases hawait : awaitAll
            (fun node => getNodeSummary node (loadMarkdownConfig options).summaryTokenThreshold llm)
            (structureToList (formatStructureRoots true
              (mdTreeWithIds content (loadMarkdownConfig options)))) with
        | error e => rw [hawait] at hgen; exact Except.noConfusion hgen
        | ok ss =>
          rw [hawait] at hgen
          cases hgen
          exact ⟨ss, rfl⟩
      obtain ⟨ss, rfl⟩ := hsum
      by_cases htext : (loadMarkdownConfig options).ifAddNodeText = true
      · rw [if_pos htext, nodeId_proj_writeBack, nodeId_proj_format]
      · rw [if_neg htext, nodeId_proj_format, nodeId_proj_writeBack, nodeId_proj_format]
  · have hstruct := addDocDescription_structure _ _ _ hok
    rw [hstruct, nodeId_proj_format]

theorem mdTreeWithIds_length (content : String) (config : ResolvedMarkdownConfig)
    (hid : config.ifAddNodeId = true) :
    (structureToList (mdTreeWithIds content config)).length
      = (structureToList (buildTreeFromNodes (mdFlatNodes content config))).length := by
  simp only [mdTreeWithIds, hid, if_true]
  have h := congrArg List.length
    (writeNodeIdRoots_spec (buildTreeFromNodes (mdFlatNodes content config)) 0).1
  rw [List.length_map, reIdData_length, List.length_map] at h
  exact h

/-- With the identifier pass enabled, the tree after the pass carries the
contiguous zero-padded sequence starting at 0 in pre-order. -/
theorem mdTreeWithIds_nodeId_on (content : String) (config : ResolvedMarkdownConfig)
    (hid : config.ifAddNodeId = true) :
    (structureToList (mdTreeWithIds content config)).map (fun t => t.nodeId)
      = (List.range' 0 (structureToList (mdTreeWithIds content config)).length).map
          (fun i => some (nodeIdString i)) := by
  rw [mdTreeWithIds_length content config hid]
  simp only [mdTreeWithIds, hid, if_true]
  rw [map_nodeId_eq_dataOf, (writeNodeIdRoots_spec _ 0).1, reIdData_nodeId, List.length_map]

/-- With the identifier pass disabled, the tree keeps the builder's 1-based
contiguous zero-padded sequence in pre-order. -/
theorem mdTreeWithIds_nodeId_off (content : String) (config : ResolvedMarkdownConfig)
    (hid : config.ifAddNodeId = false) :
    (structureToList (mdTreeWithIds content config)).map (fun t => t.nodeId)
      = (List.range' 1 (structureToList (mdTreeWithIds content config)).length).map
          (fun i => some (nodeIdString i)) := by
  simp only [mdTreeWithIds, hid, Bool.false_eq_true, if_false]
  rw [map_nodeId_eq_dataOf, buildTree_dataOf, buildData_nodeId]
  have hlen : (structureToList (buildTreeFromNodes (mdFlatNodes content config))).length
      = (mdFlatNodes content config).length := by
    have h := congrArg List.length (buildTree_dataOf (mdFlatNodes content config))
    rw [List.length_map, buildData_length] at h
    exact h
  rw [hlen]

/- ============================ Claim theorems ============================= -/

/-- C3, counterexample to the claim as stated: with default options (node
summaries enabled) and no `llm` supplied, `mdToTree` does not fail fast with
a configuration error; it returns a result. -/
theorem C3_counterexample :
    mdToTree ("") ("doc") {} = .ok { docName := "doc", structure' := [] } := rfl

/-- C3 (amended): if the options require the generation function (summaries
enabled, the default) but no `llm` is supplied, `mdToTree` does not fail:
it skips summarization entirely and returns a result in which no node
carries a `summary` or `prefixSummary` field.  (The fail-fast missing-`llm`
configuration error exists only in `loadConfig`, used by the page-based
entry point, not in `loadMarkdownConfig`/`mdToTree`.) -/
theorem C3_missing_llm_returns_result (content docName : String) (options : MarkdownOptions)
    (hllm : options.llm = none) :
    ∃ r, mdToTree content docName options = .ok r
      ∧ ∀ t ∈ structureToList r.structure', t.summary = none ∧ t.prefixSummary = none :=
  mdToTree_no_llm_ok content docName options hllm

/-- C3, witness: the amended theorem applied at a concrete input. -/
theorem C3_witness :
    (({} : MarkdownOptions).llm = none)
      ∧ ∃ r, mdToTree ("# A\n## B") ("doc") {} = .ok r
          ∧ ∀ t ∈ structureToList r.structure', t.summary = none ∧ t.prefixSummary = none :=
  ⟨rfl, C3_missing_llm_returns_result ("# A\n## B") ("doc") {} rfl⟩

/-- C6: for every Markdown input and options with node identifiers requested
(`ifAddNodeId` resolved to on), the `nodeId` fields of the final tree, read
in pre-order traversal order, form the contiguous zero-padded decimal
sequence "0000", "0001", ... with no gaps or repeats (`writeNodeId` starts
at 0 and no later stage removes or reassigns identifiers). -/
theorem C6_node_ids_contiguous_preorder (content docName : String)
    (options : MarkdownOptions) (r : PageIndexResult)
    (hid : (loadMarkdownConfig options).ifAddNodeId = true)
    (hok : mdToTree content docName options = .ok r) :
    (structureToList r.structure').map (fun t => t.nodeId)
      = (List.range' 0 (structureToList r.structure').length).map
          (fun i => some (nodeIdString i)) := by
  have hproj := mdToTree_nodeId_proj content docName options r hok
  have hids := mdTreeWithIds_nodeId_on content (loadMarkdownConfig options) hid
  have hlen : (structureToList r.structure').length
      = (structureToList (mdTreeWithIds content (loadMarkdownConfig options))).length := by
    have := congrArg List.length hproj
    rw [List.length_map, List.length_map] at this
    exact this
  rw [hlen, hproj, hids]

/-- C6, witness: the theorem applied at a concrete two-heading document. -/
theorem C6_witness :
    ((loadMarkdownConfig {}).ifAddNodeId = true)
      ∧ (structureToList
            [TreeNode.mk ("A") (some ("0000")) (some 1) none none none none
              (.cons (.mk ("B") (some ("0001")) (some 2) none none none none .nil) .nil)]).map
          (fun t => t.nodeId)
        = (List.range' 0 (structureToList
            [TreeNode.mk ("A") (some ("0000")) (some 1) none none none none
              (.cons (.mk ("B") (some ("0001")) (some 2) none none none none .nil) .nil)]).length).map
            (fun i => some (nodeIdString i)) :=
  ⟨rfl, C6_node_ids_contiguous_preorder ("# A\n## B") ("doc") {}
    { docName := "doc",
      structure' := [TreeNode.mk ("A") (some ("0000")) (some 1) none none none none
        (.cons (.mk ("B") (some ("0001")) (some 2) none none none none .nil) .nil)] }
    rfl rfl⟩

/-- C10: for every Markdown input converted with `ifAddNodeId` off, every node
of the returned tree still carries a `nodeId`: the tree builder itself
assigns zero-padded sequential identifiers starting at "0001" in flat
document-scan order (equal to pre-order), and disabling the identifier pass
neither removes nor reassigns them. -/
theorem C10_builder_ids_persist (content docName : String)
    (options : MarkdownOptions) (r : PageIndexResult)
    (hid : (loadMarkdownConfig options).ifAddNodeId = false)
    (hok : mdToTree content docName options = .ok r) :
    (structureToList r.structure').map (fun t => t.nodeId)
      = (List.range' 1 (structureToList r.structure').length).map
          (fun i => some (nodeIdString i)) := by
  have hproj := mdToTree_nodeId_proj content docName options r hok
  have hids := mdTreeWithIds_nodeId_off content (loadMarkdownConfig options) hid
  have hlen : (structureToList r.structure').length
      = (structureToList (mdTreeWithIds content (loadMarkdownConfig options))).length := by
    have := congrArg List.length hproj
    rw [List.length_map, List.length_map] at this
    exact this
  rw [hlen, hproj, hids]

/-- C10, witness: the theorem applied at a concrete two-heading document with
the identifier pass disabled. -/
theorem C10_witness :
    ((loadMarkdownConfig { ifAddNodeId := some false }).ifAddNodeId = false)
      ∧ (structureToList
            [TreeNode.mk ("A") (some ("0001")) (some 1) none none none none
              (.cons (.mk ("B") (some ("0002")) (some 2) none none none none .nil) .nil)]).map
          (fun t => t.nodeId)
        = (List.range' 1 (structureToList
            [TreeNode.mk ("A") (some ("0001")) (some 1) none none none none
              (.cons (.mk ("B") (some ("0002")) (some 2) none none none none .nil) .nil)]).length).map
            (fun i => some (nodeIdString i)) :=
  ⟨rfl, C10_builder_ids_persist ("# A\n## B") ("doc") { ifAddNodeId := some false }
    { docName := "doc",
      structure' := [TreeNode.mk ("A") (some ("0001")) (some 1) none none none none
        (.cons (.mk ("B") (some ("0002")) (some 2) none none none none .nil) .nil)] }
    rfl rfl⟩

/-- C7: after summarization, every tree node carries at most one of
{`summary`, `prefixSummary`}: a node with one or more children never
carries `summary` (it gets `prefixSummary`), a childless node never carries
`prefixSummary` (it gets `summary`); which field is set depends solely on
whether the node has children at summarization time.  Stated for any input
tree whose nodes carry no summary fields yet, as holds for the trees
`mdToTree` feeds to the summarizer. -/
theorem C7_summary_prefixSummary_exclusive (structure' : List TreeNode) (thr : Nat)
    (llm : LLMFunction) (out : List TreeNode)
    (hclean : ∀ t ∈ structureToList structure', t.summary = none ∧ t.prefixSummary = none)
    (hok : generateSummariesForStructureMd structure' thr llm = .ok out) :
    ∀ t ∈ structureToList out,
      (t.nodes.isNil = true → (t.summary).isSome ∧ t.prefixSummary = none)
        ∧ (t.nodes.isNil = false → t.summary = none ∧ (t.prefixSummary).isSome) :=
  generateSummaries_exclusive structure' thr llm out hclean hok

/-- C7, witness: the theorem applied to a concrete root-with-one-child tree. -/
theorem C7_witness :
    (∀ t ∈ structureToList c7Demo, t.summary = none ∧ t.prefixSummary = none)
      ∧ ∀ t ∈ structureToList c7DemoOut,
        (t.nodes.isNil = true → (t.summary).isSome ∧ t.prefixSummary = none)
          ∧ (t.nodes.isNil = false → t.summary = none ∧ (t.prefixSummary).isSome) :=
  ⟨by decide, C7_summary_prefixSummary_exclusive c7Demo 200 c7Llm c7DemoOut (by decide) rfl⟩

/-- C8: per-tree summarization is all-or-nothing: if the injected generation
function fails for any one node's request, the joint wait on all requests
propagates that failure out of the conversion call - `mdToTree` returns the
error, so no tree with partially written summaries is ever produced. -/
theorem C8_summary_failure_propagates (content docName : String)
    (options : MarkdownOptions) (llm : LLMFunction) (node : TreeNode) (e : String)
    (hllm : (loadMarkdownConfig options).llm = some llm)
    (hs : (loadMarkdownConfig options).ifAddNodeSummary = true)
    (hmem : node ∈ structureToList
      (formatStructureRoots true (mdTreeWithIds content (loadMarkdownConfig options))))
    (herr : getNodeSummary node (loadMarkdownConfig options).summaryTokenThreshold llm
      = .error e) :
    ∃ e', mdToTree content docName options = .error e' :=
  mdToTree_error_of_summary_error content docName options llm node e hllm hs hmem herr

/-- C8, witness: the theorem applied at a concrete one-heading document whose
only summary request rejects. -/
theorem C8_witness :
    ((loadMarkdownConfig c8Opts).llm = some c8Llm
      ∧ (loadMarkdownConfig c8Opts).ifAddNodeSummary = true
      ∧ getNodeSummary c8Node (loadMarkdownConfig c8Opts).summaryTokenThreshold c8Llm
          = .error ("boom"))
      ∧ ∃ e', mdToTree ("# A") ("doc") c8Opts = .error e' :=
  ⟨⟨rfl, rfl, rfl⟩,
    C8_summary_failure_propagates ("# A") ("doc") c8Opts c8Llm c8Node ("boom")
      rfl rfl (List.mem_cons_self _ _) rfl⟩

/-- C9: the JSON extraction helper never raises: every string transformation
in both attempts is total, and if both parses (the initial one and the one
after the trailing-comma cleanup retry) fail, the result is the empty
object rather than an exception. -/
theorem C9_extractJson_returns_empty_object (parse : String → Except String Json)
    (content : String) (e1 e2 : String)
    (h1 : parse (extractJsonCleanup1 content) = .error e1)
    (h2 : parse (extractJsonCleanup2 content) = .error e2) :
    extractJson parse content = Json.obj [] := by
  unfold extractJson
  rw [h1, h2]

/-- C9, witness: the theorem applied at a concrete unparsable input. -/
theorem C9_witness :
    (c9Parse (extractJsonCleanup1 ("x")) = .error ("bad")
      ∧ c9Parse (extractJsonCleanup2 ("x")) = .error ("bad"))
      ∧ extractJson c9Parse ("x") = Json.obj [] :=
  ⟨⟨rfl, rfl⟩, C9_extractJson_returns_empty_object c9Parse ("x") ("bad") ("bad") rfl rfl⟩

/- ================ Scanner and materializer lemmas (C4, C2) =============== -/

/-- Every scanner entry lies in the scanned range and its raw line's trimmed
form matches the header pattern, producing exactly the stored title. -/
theorem scanLines_mem : ∀ (lines : List String) (base : Nat) (flag : Bool) (sn : ScanNode),
    sn ∈ scanLines lines base flag →
    base ≤ sn.lineNum ∧ sn.lineNum < base + lines.length
      ∧ headerMatch (jsTrim (lines.getD (sn.lineNum - base) (""))).data
          = some (sn.nodeTitle.data)
  | line :: restLines, base, flag, sn, hmem => by
    unfold scanLines at hmem
    by_cases h1 : List.isPrefixOf ('`' :: '`' :: '`' :: []) (jsTrim line).data
    · rw [if_pos h1] at hmem
      obtain ⟨hge, hlt, hmatch⟩ := scanLines_mem restLines (base + 1) (!flag) sn hmem
      refine ⟨by omega, by simp only [List.length_cons]; omega, ?_⟩
      have hidx : sn.lineNum - base = (sn.lineNum - (base + 1)) + 1 := by omega
      rw [hidx]
      exact hmatch
    · rw [if_neg h1] at hmem
      by_cases h2 : (jsTrim line).data = []
      · rw [if_pos h2] at hmem
        obtain ⟨hge, hlt, hmatch⟩ := scanLines_mem restLines (base + 1) flag sn hmem
        refine ⟨by omega, by simp only [List.length_cons]; omega, ?_⟩
        have hidx : sn.lineNum - base = (sn.lineNum - (base + 1)) + 1 := by omega
        rw [hidx]
        exact hmatch
      · rw [if_neg h2] at hmem
        cases flag with
        | false =>
          rw [if_pos (show (!false) = true from rfl)] at hmem
          cases hmatch : headerMatch (jsTrim line).data with
          | some title =>
            rw [hmatch] at hmem
            rcases List.mem_cons.mp hmem with rfl | hmem
            · refine ⟨Nat.le_refl _, by simp only [List.length_cons]; omega, ?_⟩
              simp only [Nat.sub_self, List.getD]
              show headerMatch (jsTrim line).data = some (String.data ⟨title⟩)
              exact hmatch
            · obtain ⟨hge, hlt, hm⟩ := scanLines_mem restLines (base + 1) false sn hmem
              refine ⟨by omega, by simp only [List.length_cons]; omega, ?_⟩
              have hidx : sn.lineNum - base = (sn.lineNum - (base + 1)) + 1 := by omega
              rw [hidx]
              exact hm
          | none =>
            rw [hmatch] at hmem
            obtain ⟨hge, hlt, hm⟩ := scanLines_mem restLines (base + 1) false sn hmem
            refine ⟨by omega, by simp only [List.length_cons]; omega, ?_⟩
            have hidx : sn.lineNum - base = (sn.lineNum - (base + 1)) + 1 := by omega
            rw [hidx]
            exact hm
        | true =>
          rw [if_neg (show ¬((!true) = true) by simp)] at hmem
          obtain ⟨hge, hlt, hm⟩ := scanLines_mem restLines (base + 1) true sn hmem
          refine ⟨by omega, by simp only [List.length_cons]; omega, ?_⟩
          have hidx : sn.lineNum - base = (sn.lineNum - (base + 1)) + 1 := by omega
          rw [hidx]
          exact hm

/-- Scanner entries appear in strictly increasing line order. -/
theorem scanLines_pairwise : ∀ (lines : List String) (base : Nat) (flag : Bool),
    (scanLines lines base flag).Pairwise (fun a b => a.lineNum < b.lineNum)
  | [], _, _ => List.Pairwise.nil
  | line :: restLines, base, flag => by
    unfold scanLines
    by_cases h1 : List.isPrefixOf ('`' :: '`' :: '`' :: []) (jsTrim line).data
    · rw [if_pos h1]
      exact scanLines_pairwise restLines (base + 1) (!flag)
    · rw [if_neg h1]
      by_cases h2 : (jsTrim line).data = []
      · rw [if_pos h2]
        exact scanLines_pairwise restLines (base + 1) flag
      · rw [if_neg h2]
        cases flag with
        | false =>
          rw [if_pos (show (!false) = true from rfl)]
          cases hmatch : headerMatch (jsTrim line).data with
          | some title =>
            refine List.Pairwise.cons ?_ (scanLines_pairwise restLines (base + 1) false)
            intro b hb
            have := (scanLines_mem restLines (base + 1) false b hb).1
            show base < b.lineNum
            omega
          | none =>
            exact scanLines_pairwise restLines (base + 1) false
        | true =>
          rw [if_neg (show ¬((!true) = true) by simp)]
          exact scanLines_pairwise restLines (base + 1) true

theorem leadingHashCount_append_single (xs : List Char) (x : Char) (hx : x ≠ '#') :
    leadingHashCount (xs ++ [x]) = leadingHashCount xs := by
  induction xs with
  | nil => simp [leadingHashCount, List.takeWhile_cons, hx]
  | cons c cs ih =>
    by_cases hc : c = '#'
    · subst hc
      have h1 : leadingHashCount (('#' :: cs) ++ [x]) = leadingHashCount (cs ++ [x]) + 1 := by
        simp [leadingHashCount, List.takeWhile_cons]
      have h2 : leadingHashCount ('#' :: cs) = leadingHashCount cs + 1 := by
        simp [leadingHashCount, List.takeWhile_cons]
      rw [h1, h2, ih]
    · simp [leadingHashCount, List.takeWhile_cons, hc]

theorem leadingHashCount_dropTrailingWs (l : List Char) :
    leadingHashCount ((l.reverse.dropWhile jsIsWhitespace).reverse) = leadingHashCount l := by
  induction l using List.reverseRecOn with
  | nil => rfl
  | append_singleton xs x ih =>
    by_cases hx : jsIsWhitespace x
    · have hstep : ((xs ++ [x]).reverse.dropWhile jsIsWhitespace)
          = (xs.reverse.dropWhile jsIsWhitespace) := by
        rw [List.reverse_append]
        simp [List.dropWhile, hx]
      rw [hstep, ih]
      have hxh : x ≠ '#' := by
        intro heq
        rw [heq] at hx
        simp [jsIsWhitespace] at hx
      rw [leadingHashCount_append_single xs x hxh]
    · have hstep : ((xs ++ [x]).reverse.dropWhile jsIsWhitespace) = (xs ++ [x]).reverse := by
        rw [List.reverse_append]
        simp [List.dropWhile, hx]
      rw [hstep, List.reverse_reverse]

theorem leadingHashCount_trimChars (l : List Char) (h : 0 < leadingHashCount l) :
    leadingHashCount (trimChars l) = leadingHashCount l := by
  have hhead : l.dropWhile jsIsWhitespace = l := by
    cases l with
    | nil => rfl
    | cons c rest =>
      have hc : c = '#' := by
        by_contra hne
        simp [leadingHashCount, List.takeWhile, hne] at h
      rw [hc]
      simp [List.dropWhile, show jsIsWhitespace '#' = false by decide]
  unfold trimChars
  rw [hhead, leadingHashCount_dropTrailingWs]

theorem headerMatch_hash_le (l title : List Char) (h : headerMatch l = some title) :
    1 ≤ leadingHashCount l ∧ leadingHashCount l ≤ 6 := by
  unfold headerMatch at h
  dsimp only at h
  split at h
  · assumption
  · exact Option.noConfusion h

theorem attachTexts_proj : ∀ (l : List MarkdownNode) (markdownLines : List String),
    (attachTexts l markdownLines).map (fun nd => (nd.title, nd.lineNum, nd.level))
      = l.map (fun nd => (nd.title, nd.lineNum, nd.level))
  | [], _ => rfl
  | [node], markdownLines => rfl
  | node :: next :: rest, markdownLines => by
    show (node.title, node.lineNum, node.level)
        :: (attachTexts (next :: rest) markdownLines).map (fun nd => (nd.title, nd.lineNum, nd.level))
      = (node.title, node.lineNum, node.level) :: _
    rw [attachTexts_proj (next :: rest) markdownLines]

theorem headerNodesOf_map : ∀ (nl : List ScanNode) (lines : List String),
    (headerNodesOf nl lines).map (fun nd => (nd.title, nd.lineNum, nd.level))
      = (nl.filter (fun sn =>
            decide (0 < leadingHashCount ((lines.getD (sn.lineNum - 1) ("")).data)))).map
          (fun sn => (sn.nodeTitle, sn.lineNum,
            min (leadingHashCount ((lines.getD (sn.lineNum - 1) ("")).data)) 6))
  | [], _ => rfl
  | sn :: rest, lines => by
    by_cases hk : leadingHashCount ((lines.getD (sn.lineNum - 1) ("")).data) = 0
    · have h1 : headerNodesOf (sn :: rest) lines = headerNodesOf rest lines := by
        unfold headerNodesOf
        rw [List.filterMap_cons]
        dsimp only
        rw [if_pos hk]
      have hcond : (decide (0 < leadingHashCount ((lines.getD (sn.lineNum - 1) ("")).data)))
          = false := by
        rw [hk]
        rfl
      have h2 : (sn :: rest).filter (fun sn =>
            decide (0 < leadingHashCount ((lines.getD (sn.lineNum - 1) ("")).data)))
          = rest.filter (fun sn =>
            decide (0 < leadingHashCount ((lines.getD (sn.lineNum - 1) ("")).data))) := by
        rw [List.filter_cons]
        rw [hcond]
        rfl
      rw [h1, h2, headerNodesOf_map rest lines]
    · have h1 : headerNodesOf (sn :: rest) lines
          = { title := sn.nodeTitle, lineNum := sn.lineNum,
              level := min (leadingHashCount ((lines.getD (sn.lineNum - 1) ("")).data)) 6 }
            :: headerNodesOf rest lines := by
        unfold headerNodesOf
        rw [List.filterMap_cons]
        dsimp only
        rw [if_neg hk]
      have hcond : (decide (0 < leadingHashCount ((lines.getD (sn.lineNum - 1) ("")).data)))
          = true := decide_eq_true (Nat.pos_of_ne_zero hk)
      have h2 : (sn :: rest).filter (fun sn =>
            decide (0 < leadingHashCount ((lines.getD (sn.lineNum - 1) ("")).data)))
          = sn :: rest.filter (fun sn =>
            decide (0 < leadingHashCount ((lines.getD (sn.lineNum - 1) ("")).data))) := by
        rw [List.filter_cons]
        rw [hcond]
        rfl
      rw [h1, h2]
      simp only [List.map_cons]
      rw [headerNodesOf_map rest lines]

/-- C4, counterexample to the claim as stated: a heading whose raw line has
leading whitespace before the `#` is recognized by the scanner (which
matches the trimmed line) but yields no flat section: the materializer
re-matches `/^(#{1,6})/` against the raw, untrimmed line and drops the
entry. -/
theorem C4_counterexample :
    (extractNodesFromMarkdown ("  # T\nbody")).1 = [{ nodeTitle := "T", lineNum := 1 }]
      ∧ extractNodeTextContent (extractNodesFromMarkdown ("  # T\nbody")).1
          (extractNodesFromMarkdown ("  # T\nbody")).2 = [] :=
  ⟨rfl, rfl⟩

/-- C4 (amended): for every Markdown input, the flat section records are
exactly the recognized headings whose raw line itself starts with `#` (no
leading whitespace), one record per such heading, in document order, with
level equal to the count of leading `#` characters on that heading's own
raw line; recognized headings whose raw line has leading whitespace are
dropped by the materializer. -/
theorem C4_sections_per_materialized_heading (content : String) :
    (extractNodeTextContent (extractNodesFromMarkdown content).1
        (extractNodesFromMarkdown content).2).map (fun nd => (nd.title, nd.lineNum, nd.level))
      = ((extractNodesFromMarkdown content).1.filter (fun sn =>
            decide (0 < leadingHashCount
              (((extractNodesFromMarkdown content).2.getD (sn.lineNum - 1) ("")).data)))).map
          (fun sn => (sn.nodeTitle, sn.lineNum,
            leadingHashCount (((extractNodesFromMarkdown content).2.getD (sn.lineNum - 1) ("")).data))) := by
  unfold extractNodeTextContent
  rw [attachTexts_proj, headerNodesOf_map]
  apply List.map_congr_left
  intro sn hsn
  have hmemnl : sn ∈ (extractNodesFromMarkdown content).1 := List.mem_of_mem_filter hsn
  have hpos : 0 < leadingHashCount
      (((extractNodesFromMarkdown content).2.getD (sn.lineNum - 1) ("")).data) :=
    of_decide_eq_true (List.mem_filter.mp hsn).2
  have hscan := scanLines_mem (jsSplitLines content) 1 false sn hmemnl
  have hmatch : headerMatch (trimChars
      (((extractNodesFromMarkdown content).2.getD (sn.lineNum - 1) ("")).data))
      = some (sn.nodeTitle.data) := hscan.2.2
  have hle := (headerMatch_hash_le _ _ hmatch).2
  rw [leadingHashCount_trimChars _ hpos] at hle
  have hmin : min (leadingHashCount
      (((extractNodesFromMarkdown content).2.getD (sn.lineNum - 1) ("")).data)) 6
      = leadingHashCount (((extractNodesFromMarkdown content).2.getD (sn.lineNum - 1) ("")).data) :=
    Nat.min_eq_left hle
  rw [hmin]

/- ===================== Text reproduction (C2) ============================ -/

theorem stripWsChars_flatten (L : List (List Char)) :
    stripWsChars L.flatten = (L.map stripWsChars).flatten := by
  induction L with
  | nil => rfl
  | cons l rest ih => simp [stripWsChars_append, ih]

/-- Splitting a line suffix at a later index splits its whitespace-stripped
join. -/
theorem strip_join_split (markdownLines : List String) (a b : Nat) (hab : a ≤ b) :
    stripWsChars (joinWithNl ((markdownLines.drop a).map (fun s => s.data)))
      = stripWsChars (joinWithNl ((sliceLines markdownLines a b).map (fun s => s.data)))
        ++ stripWsChars (joinWithNl ((markdownLines.drop b).map (fun s => s.data))) := by
  have hsplit : markdownLines.drop a
      = sliceLines markdownLines a b ++ markdownLines.drop b := by
    have h2 : (markdownLines.drop a).drop (b - a) = markdownLines.drop b := by
      rw [List.drop_drop]
      congr 1
      omega
    calc markdownLines.drop a
        = (markdownLines.drop a).take (b - a) ++ (markdownLines.drop a).drop (b - a) :=
          (List.take_append_drop _ _).symm
      _ = sliceLines markdownLines a b ++ markdownLines.drop b := by rw [h2]; rfl
  rw [hsplit, List.map_append, stripWsChars_joinWithNl, List.map_append, List.flatten_append,
    stripWsChars_joinWithNl, stripWsChars_joinWithNl]

/-- The tiling lemma: with strictly increasing, in-range line numbers, the
whitespace-stripped concatenation of the attached section texts equals the
whitespace-stripped join of all lines from the first section's heading line
onward. -/
theorem attachTexts_strip_concat : ∀ (node : MarkdownNode) (rest : List MarkdownNode)
    (markdownLines : List String),
    ((node :: rest).map (fun x => x.lineNum)).Pairwise (· < ·) →
    (∀ x ∈ node :: rest, 1 ≤ x.lineNum ∧ x.lineNum ≤ markdownLines.length) →
    ((attachTexts (node :: rest) markdownLines).map
        (fun x => stripWsChars ((x.text.getD ("")).data))).flatten
      = stripWsChars (joinWithNl ((markdownLines.drop (node.lineNum - 1)).map (fun s => s.data)))
  | node, [], markdownLines, _, hbound => by
    show stripWsChars ((spanText markdownLines (node.lineNum - 1) markdownLines.length).data)
        ++ [].flatten = _
    have hspan : (spanText markdownLines (node.lineNum - 1) markdownLines.length).data
        = trimChars (joinWithNl ((sliceLines markdownLines (node.lineNum - 1)
            markdownLines.length).map (fun s => s.data))) := rfl
    rw [hspan, stripWsChars_trimChars]
    have hslice : sliceLines markdownLines (node.lineNum - 1) markdownLines.length
        = markdownLines.drop (node.lineNum - 1) := by
      unfold sliceLines
      rw [← List.length_drop]
      exact List.take_length _
    rw [hslice]
    simp
  | node, next :: rest, markdownLines, hpair, hbound => by
    have hlt : node.lineNum < next.lineNum := by
      have := (List.pairwise_cons.mp hpair).1
      exact this next.lineNum (by simp)
    have h1 : 1 ≤ node.lineNum := (hbound node (by simp)).1
    show stripWsChars ((spanText markdownLines (node.lineNum - 1) (next.lineNum - 1)).data)
        ++ ((attachTexts (next :: rest) markdownLines).map
            (fun x => stripWsChars ((x.text.getD ("")).data))).flatten = _
    have hspan : (spanText markdownLines (node.lineNum - 1) (next.lineNum - 1)).data
        = trimChars (joinWithNl ((sliceLines markdownLines (node.lineNum - 1)
            (next.lineNum - 1)).map (fun s => s.data))) := rfl
    rw [hspan, stripWsChars_trimChars]
    rw [attachTexts_strip_concat next rest markdownLines
      (by
        have := List.pairwise_cons.mp hpair
        exact this.2)
      (by
        intro x hx
        exact hbound x (List.mem_cons_of_mem _ hx))]
    rw [strip_join_split markdownLines (node.lineNum - 1) (next.lineNum - 1) (by omega)]

theorem headerNodesOf_mem : ∀ (nl : List ScanNode) (lines : List String) (nd : MarkdownNode),
    nd ∈ headerNodesOf nl lines → ∃ sn ∈ nl, nd.lineNum = sn.lineNum := by
  intro nl lines nd h
  obtain ⟨sn, hsn, hf⟩ := List.mem_filterMap.mp h
  refine ⟨sn, hsn, ?_⟩
  by_cases hk : leadingHashCount ((lines.getD (sn.lineNum - 1) ("")).data) = 0
  · rw [if_pos hk] at hf
    exact Option.noConfusion hf
  · rw [if_neg hk] at hf
    cases hf
    rfl

theorem headerNodesOf_pairwise : ∀ (nl : List ScanNode) (lines : List String),
    nl.Pairwise (fun a b => a.lineNum < b.lineNum) →
    (headerNodesOf nl lines).Pairwise (fun a b => a.lineNum < b.lineNum)
  | [], _, _ => List.Pairwise.nil
  | sn :: rest, lines, h => by
    have htail := headerNodesOf_pairwise rest lines (List.pairwise_cons.mp h).2
    by_cases hk : leadingHashCount ((lines.getD (sn.lineNum - 1) ("")).data) = 0
    · have h1 : headerNodesOf (sn :: rest) lines = headerNodesOf rest lines := by
        unfold headerNodesOf
        rw [List.filterMap_cons]
        dsimp only
        rw [if_pos hk]
      rw [h1]
      exact htail
    · have h1 : headerNodesOf (sn :: rest) lines
          = { title := sn.nodeTitle, lineNum := sn.lineNum,
              level := min (leadingHashCount ((lines.getD (sn.lineNum - 1) ("")).data)) 6 }
            :: headerNodesOf rest lines := by
        unfold headerNodesOf
        rw [List.filterMap_cons]
        dsimp only
        rw [if_neg hk]
      rw [h1]
      refine List.Pairwise.cons ?_ htail
      intro nd hnd
      obtain ⟨sn', hsn', heq⟩ := headerNodesOf_mem rest lines nd hnd
      have := (List.pairwise_cons.mp h).1 sn' hsn'
      show sn.lineNum < nd.lineNum
      omega

theorem headerNodesOf_bounds (content : String) :
    ∀ nd ∈ headerNodesOf (extractNodesFromMarkdown content).1 (extractNodesFromMarkdown content).2,
      1 ≤ nd.lineNum ∧ nd.lineNum ≤ (extractNodesFromMarkdown content).2.length := by
  intro nd hnd
  obtain ⟨sn, hsn, heq⟩ := headerNodesOf_mem _ _ nd hnd
  have hb := (scanLines_mem (jsSplitLines content) 1 false sn hsn)
  have hlen : (extractNodesFromMarkdown content).2.length = (jsSplitLines content).length := rfl
  refine ⟨by omega, ?_⟩
  rw [hlen]
  have := hb.2.1
  omega

/-- The pre-order texts of the built tree are the section texts. -/
theorem buildTree_texts (l : List MarkdownNode) :
    (structureToList (buildTreeFromNodes l)).map (fun t => ((t.text.getD ("")).data))
      = l.map (fun nd => ((nd.text.getD ("")).data)) := by
  have h := congrArg (List.map (fun d : NodeData => ((d.text.getD ("")).data)))
    (buildTree_dataOf l)
  rw [List.map_map] at h
  have h2 : (structureToList (buildTreeFromNodes l)).map
      ((fun d : NodeData => ((d.text.getD ("")).data)) ∘ dataOf)
      = (structureToList (buildTreeFromNodes l)).map (fun t => ((t.text.getD ("")).data)) := by
    apply List.map_congr_left
    intro t _
    show ((dataOf t).text.getD ("")).data = _
    rw [dataOf_text]
  rw [h2] at h
  rw [h]
  have h3 := congrArg (List.map (fun o : Option String => ((o.getD ("")).data)))
    (buildData_text 1 l)
  rw [List.map_map, List.map_map] at h3
  exact h3

/-- C2, counterexample to the claim as stated: with an internal node owning
text of its own, the concatenated leaf texts do not reproduce the document
after the first heading (not even up to whitespace): the internal node's
own span appears in no leaf. -/
theorem C2_counterexample :
    concatLeafTexts (buildTreeFromNodes (extractNodeTextContent
        (extractNodesFromMarkdown ("# A\nt1\n## B\nt2")).1
        (extractNodesFromMarkdown ("# A\nt1\n## B\nt2")).2))
      ≠ docTail ("# A\nt1\n## B\nt2")
    ∧ stripWs (concatLeafTexts (buildTreeFromNodes (extractNodeTextContent
        (extractNodesFromMarkdown ("# A\nt1\n## B\nt2")).1
        (extractNodesFromMarkdown ("# A\nt1\n## B\nt2")).2)))
      ≠ stripWs (docTail ("# A\nt1\n## B\nt2")) := by
  constructor <;> decide

/-- C2 (amended): for every Markdown input converted without thinning,
concatenating the `text` of every node of the resulting tree (in pre-order
traversal order) reproduces the original document's content from the first
materialized heading's line onward, up to whitespace: the concatenations
agree after deleting all whitespace characters (per-section trimming and
the newline joins make exact equality unattainable, and internal nodes'
own spans - absent from every leaf - are required). -/
theorem C2_all_nodes_reproduce_tail (content : String) :
    stripWs (concatNodeTexts (buildTreeFromNodes (extractNodeTextContent
        (extractNodesFromMarkdown content).1 (extractNodesFromMarkdown content).2)))
      = stripWs (docTail content) := by
  show String.mk (stripWsChars (concatNodeTexts _).data) = String.mk (stripWsChars (docTail content).data)
  have htexts := buildTree_texts (extractNodeTextContent
    (extractNodesFromMarkdown content).1 (extractNodesFromMarkdown content).2)
  have hconcat : (concatNodeTexts (buildTreeFromNodes (extractNodeTextContent
      (extractNodesFromMarkdown content).1 (extractNodesFromMarkdown content).2))).data
      = ((extractNodeTextContent (extractNodesFromMarkdown content).1
          (extractNodesFromMarkdown content).2).map (fun nd => ((nd.text.getD ("")).data))).flatten := by
    show ((structureToList _).map (fun t => ((t.text.getD ("")).data))).flatten = _
    rw [htexts]
  rw [hconcat]
  unfold extractNodeTextContent
  cases hl0 : headerNodesOf (extractNodesFromMarkdown content).1
      (extractNodesFromMarkdown content).2 with
  | nil =>
    have hdt : docTail content = ("") := by
      unfold docTail extractNodeTextContent
      rw [hl0]
      rfl
    rw [hdt]
    rfl
  | cons node rest =>
    have hpair : ((node :: rest).map (fun x => x.lineNum)).Pairwise (· < ·) := by
      have hp := headerNodesOf_pairwise (extractNodesFromMarkdown content).1
        (extractNodesFromMarkdown content).2
        (by
          have hs := scanLines_pairwise (jsSplitLines content) 1 false
          exact hs)
      rw [hl0] at hp
      exact List.pairwise_map.mpr hp
    have hbound : ∀ x ∈ node :: rest,
        1 ≤ x.lineNum ∧ x.lineNum ≤ (extractNodesFromMarkdown content).2.length := by
      intro x hx
      apply headerNodesOf_bounds content
      rw [hl0]
      exact hx
    have htile := attachTexts_strip_concat node rest (extractNodesFromMarkdown content).2
      hpair hbound
    have hstrip : stripWsChars (((attachTexts (node :: rest)
        (extractNodesFromMarkdown content).2).map (fun nd => ((nd.text.getD ("")).data))).flatten)
        = ((attachTexts (node :: rest) (extractNodesFromMarkdown content).2).map
            (fun x => stripWsChars ((x.text.getD ("")).data))).flatten := by
      rw [stripWsChars_flatten, List.map_map]
      rfl
    have hdt : (docTail content).data
        = joinWithNl (((extractNodesFromMarkdown content).2.drop (node.lineNum - 1)).map
            (fun s => s.data)) := by
      unfold docTail extractNodeTextContent
      rw [hl0]
      have hhead : (attachTexts (node :: rest) (extractNodesFromMarkdown content).2).head?
          = some { node with text := some (spanText (extractNodesFromMarkdown content).2
              (node.lineNum - 1) (match rest with
                | [] => (extractNodesFromMarkdown content).2.length
                | next :: _ => next.lineNum - 1)) } := by
        cases rest <;> rfl
      rw [hhead]
      rfl
    apply congrArg String.mk
    rw [hstrip, htile, hdt]

/- ============== Thinning: level/boundary theory (C1, C5) ================= -/

theorem spanLen_eq_spanLenL (lvl : Nat) : ∀ (l : List MarkdownNode),
    spanLen lvl l = spanLenL lvl (l.map (fun nd => nd.level))
  | [] => rfl
  | nd :: rest => by
    show (if nd.level ≤ lvl then 0 else 1 + spanLen lvl rest)
        = (if nd.level ≤ lvl then 0 else 1 + spanLenL lvl (rest.map (fun nd => nd.level)))
    rw [spanLen_eq_spanLenL lvl rest]

theorem spanLenL_le_length (lvl : Nat) : ∀ (L : List Nat), spanLenL lvl L ≤ L.length
  | [] => Nat.le_refl 0
  | lv :: rest => by
    show (if lv ≤ lvl then 0 else 1 + spanLenL lvl rest) ≤ rest.length + 1
    by_cases h : lv ≤ lvl
    · rw [if_pos h]
      omega
    · rw [if_neg h]
      have := spanLenL_le_length lvl rest
      omega

theorem spanLenL_inside (lvl : Nat) : ∀ (L : List Nat) (j : Nat),
    j < spanLenL lvl L → lvl < L.getD j 0
  | lv :: rest, j, hj => by
    by_cases h : lv ≤ lvl
    · rw [show spanLenL lvl (lv :: rest) = 0 from by simp [spanLenL, h]] at hj
      omega
    · cases j with
      | zero => show lvl < lv; omega
      | succ j =>
        show lvl < rest.getD j 0
        apply spanLenL_inside lvl rest j
        rw [show spanLenL lvl (lv :: rest) = 1 + spanLenL lvl rest from by simp [spanLenL, h]] at hj
        omega

theorem spanLenL_end (lvl : Nat) : ∀ (L : List Nat),
    spanLenL lvl L < L.length → L.getD (spanLenL lvl L) 0 ≤ lvl
  | [], h => by simp at h
  | lv :: rest, h => by
    by_cases hl : lv ≤ lvl
    · rw [show spanLenL lvl (lv :: rest) = 0 from by simp [spanLenL, hl]]
      exact hl
    · rw [show spanLenL lvl (lv :: rest) = 1 + spanLenL lvl rest from by simp [spanLenL, hl]] at h ⊢
      rw [show 1 + spanLenL lvl rest = spanLenL lvl rest + 1 from Nat.add_comm _ _]
      show rest.getD (spanLenL lvl rest) 0 ≤ lvl
      apply spanLenL_end lvl rest
      simp only [List.length_cons] at h
      omega

theorem spanLenL_min (lvl : Nat) : ∀ (L : List Nat) (j : Nat),
    j < L.length → L.getD j 0 ≤ lvl → spanLenL lvl L ≤ j
  | [], j, hj, _ => by simp at hj
  | lv :: rest, j, hj, hle => by
    by_cases hl : lv ≤ lvl
    · rw [show spanLenL lvl (lv :: rest) = 0 from by simp [spanLenL, hl]]
      omega
    · cases j with
      | zero =>
        exact absurd (hle : lv ≤ lvl) hl
      | succ j =>
        rw [show spanLenL lvl (lv :: rest) = 1 + spanLenL lvl rest from by simp [spanLenL, hl]]
        have := spanLenL_min lvl rest j (by simp at hj; omega) (hle : rest.getD j 0 ≤ lvl)
        omega

theorem getD_drop_nat : ∀ (L : List Nat) (n k : Nat), (L.drop n).getD k 0 = L.getD (n + k) 0
  | _, 0, k => by rw [List.drop_zero, Nat.zero_add]
  | [], n + 1, k => by simp
  | x :: L, n + 1, k => by
    show (L.drop n).getD k 0 = (x :: L).getD (n + 1 + k) 0
    rw [getD_drop_nat L n k]
    have : n + 1 + k = (n + k) + 1 := by omega
    rw [this]
    rfl

theorem bndL_gt (i lvl : Nat) (lvls : List Nat) : i < bndL i lvl lvls := by
  unfold bndL
  omega

theorem bndL_le_length (i lvl : Nat) (lvls : List Nat) (h : i < lvls.length) :
    bndL i lvl lvls ≤ lvls.length := by
  unfold bndL
  have h1 := spanLenL_le_length lvl (lvls.drop (i + 1))
  rw [List.length_drop] at h1
  omega

theorem bndL_inside (i lvl : Nat) (lvls : List Nat) (m : Nat) (h1 : i < m)
    (h2 : m < bndL i lvl lvls) : lvl < levelAt lvls m := by
  unfold bndL at h2
  have := spanLenL_inside lvl (lvls.drop (i + 1)) (m - (i + 1)) (by omega)
  rw [getD_drop_nat] at this
  unfold levelAt
  have harith : i + 1 + (m - (i + 1)) = m := by omega
  rw [harith] at this
  exact this

theorem bndL_end (i lvl : Nat) (lvls : List Nat) (h : bndL i lvl lvls < lvls.length) :
    levelAt lvls (bndL i lvl lvls) ≤ lvl := by
  have hs : spanLenL lvl (lvls.drop (i + 1)) < (lvls.drop (i + 1)).length := by
    rw [List.length_drop]
    unfold bndL at h
    omega
  have := spanLenL_end lvl (lvls.drop (i + 1)) hs
  rw [getD_drop_nat] at this
  exact this

theorem bndL_min (i lvl : Nat) (lvls : List Nat) (m : Nat) (h1 : i < m) (h2 : m < lvls.length)
    (h3 : levelAt lvls m ≤ lvl) : bndL i lvl lvls ≤ m := by
  have hj : m - (i + 1) < (lvls.drop (i + 1)).length := by
    rw [List.length_drop]
    omega
  have hg : (lvls.drop (i + 1)).getD (m - (i + 1)) 0 ≤ lvl := by
    rw [getD_drop_nat]
    have harith : i + 1 + (m - (i + 1)) = m := by omega
    rw [harith]
    exact h3
  have := spanLenL_min lvl (lvls.drop (i + 1)) (m - (i + 1)) hj hg
  unfold bndL
  omega

/-- Span nesting: the child span of a position inside another position's span
ends no later than the outer span. -/
theorem bndL_nested (lvls : List Nat) (i a : Nat) (hia : i < a)
    (hab : a < bndL i (levelAt lvls i) lvls) (hilen : i < lvls.length) :
    bndL a (levelAt lvls a) lvls ≤ bndL i (levelAt lvls i) lvls := by
  have hB := bndL_le_length i (levelAt lvls i) lvls hilen
  have halen : a < lvls.length := by omega
  have hlv : levelAt lvls i < levelAt lvls a := bndL_inside i _ lvls a hia hab
  by_cases hend : bndL i (levelAt lvls i) lvls < lvls.length
  · have hle := bndL_end i (levelAt lvls i) lvls hend
    exact bndL_min a (levelAt lvls a) lvls (bndL i (levelAt lvls i) lvls) hab hend (by omega)
  · have := bndL_le_length a (levelAt lvls a) lvls halen
    omega

theorem set_self_of_getElem (l : List MarkdownNode) (i : Nat) (a : MarkdownNode)
    (h : l[i]? = some a) : l.set i a = l := by
  apply List.ext_getElem?
  intro n
  by_cases hn : n = i
  · subst hn
    rw [List.getElem?_set_self (List.getElem?_eq_some_iff.mp h).1]
    exact h.symm
  · exact List.getElem?_set_ne (fun he => hn he.symm)

theorem collectStep_snd (lst : List MarkdownNode) (acc : List String × List Nat) (c : Nat) :
    (collectStep lst acc c).2 = if c ∈ acc.2 then acc.2 else acc.2 ++ [c] := by
  unfold collectStep
  by_cases h : c ∈ acc.2
  · rw [if_pos h, if_pos h]
  · rw [if_neg h, if_neg h]
    cases hm : (lst[c]?).bind (fun nd => nd.text) with
    | none => rfl
    | some t =>
      show (if (jsTrim t).data = [] then (acc.1, acc.2 ++ [c])
        else (acc.1 ++ [t], acc.2 ++ [c])).2 = acc.2 ++ [c]
      by_cases ht : (jsTrim t).data = []
      · rw [if_pos ht]
      · rw [if_neg ht]

theorem collectFold_snd_mem (lst : List MarkdownNode) : ∀ (C : List Nat)
    (acc : List String × List Nat) (j : Nat),
    j ∈ (C.foldl (collectStep lst) acc).2 ↔ j ∈ acc.2 ∨ j ∈ C
  | [], acc, j => by simp
  | c :: C, acc, j => by
    rw [List.foldl_cons, collectFold_snd_mem lst C (collectStep lst acc c) j, collectStep_snd]
    by_cases h : c ∈ acc.2
    · rw [if_pos h]
      simp only [List.mem_cons]
      constructor
      · rintro (h1 | h1)
        · exact Or.inl h1
        · exact Or.inr (Or.inr h1)
      · rintro (h1 | rfl | h1)
        · exact Or.inl h1
        · exact Or.inl h
        · exact Or.inr h1
    · rw [if_neg h]
      simp only [List.mem_append, List.mem_cons, List.not_mem_nil, or_false]
      constructor
      · rintro ((h1 | rfl) | h1)
        · exact Or.inl h1
        · exact Or.inr (Or.inl rfl)
        · exact Or.inr (Or.inr h1)
      · rintro (h1 | rfl | h1)
        · exact Or.inl (Or.inl h1)
        · exact Or.inl (Or.inr rfl)
        · exact Or.inr h1

theorem collectChildren_mem (lst : List MarkdownNode) (C rem : List Nat) (j : Nat) :
    j ∈ (collectChildren lst C rem).2 ↔ j ∈ rem ∨ j ∈ C := by
  unfold collectChildren
  exact collectFold_snd_mem lst C ([], rem) j

theorem collectFold_fst (lst : List MarkdownNode) : ∀ (C : List Nat), C.Nodup →
    ∀ (ts : List String) (rem' rem : List Nat), (∀ j ∈ C, (j ∈ rem') ↔ (j ∈ rem)) →
    (C.foldl (collectStep lst) (ts, rem')).1
      = ts ++ (C.filter (fun j => decide (¬ j ∈ rem) &&
          decide ((jsTrim (textOf lst j)).data ≠ []))).map (fun j => textOf lst j)
  | [], _, ts, rem', rem, _ => by simp
  | c :: C, hnd, ts, rem', rem, hiff => by
    have hcards := List.nodup_cons.mp hnd
    have hcr : (c ∈ rem') ↔ (c ∈ rem) := hiff c (List.mem_cons_self c C)
    have hiff2 : ∀ (news : List Nat), (∀ j ∈ news, j = c) →
        ∀ j ∈ C, (j ∈ rem' ++ news) ↔ (j ∈ rem) := by
      intro news hnews j hj
      rw [List.mem_append]
      constructor
      · rintro (h1 | h1)
        · exact (hiff j (List.mem_cons_of_mem c hj)).mp h1
        · exact absurd hj (by rw [hnews j h1]; exact hcards.1)
      · intro h1
        exact Or.inl ((hiff j (List.mem_cons_of_mem c hj)).mpr h1)
    rw [List.foldl_cons]
    by_cases hc : c ∈ rem'
    · have hstep : collectStep lst (ts, rem') c = (ts, rem') := by
        unfold collectStep
        rw [if_pos hc]
      have hfilt : (decide (¬ c ∈ rem) &&
          decide ((jsTrim (textOf lst c)).data ≠ [])) = false := by
        rw [decide_eq_false (not_not_intro (hcr.mp hc)), Bool.false_and]
      rw [hstep, collectFold_fst lst C hcards.2 ts rem' rem
        (fun j hj => hiff j (List.mem_cons_of_mem c hj)), List.filter_cons,
        if_neg (by rw [hfilt]; exact Bool.false_ne_true)]
    · have hcrem : ¬ c ∈ rem := fun h1 => hc (hcr.mpr h1)
      cases hm : (lst[c]?).bind (fun nd => nd.text) with
      | none =>
        have hstep : collectStep lst (ts, rem') c = (ts, rem' ++ [c]) := by
          unfold collectStep
          rw [if_neg hc, hm]
        have htx : textOf lst c = ("") := by
          unfold textOf
          rw [hm]
          rfl
        have hfilt : (decide (¬ c ∈ rem) &&
            decide ((jsTrim (textOf lst c)).data ≠ [])) = false := by
          rw [htx, decide_eq_false (not_not_intro (show (jsTrim ("")).data = [] from rfl)),
            Bool.and_false]
        rw [hstep, collectFold_fst lst C hcards.2 ts (rem' ++ [c]) rem
          (hiff2 [c] (fun j hj => List.mem_singleton.mp hj)), List.filter_cons,
          if_neg (by rw [hfilt]; exact Bool.false_ne_true)]
      | some t =>
        have htx : textOf lst c = t := by
          unfold textOf
          rw [hm]
          rfl
        by_cases ht : (jsTrim t).data = []
        · have hstep : collectStep lst (ts, rem') c = (ts, rem' ++ [c]) := by
            unfold collectStep
            rw [if_neg hc, hm]
            show (if (jsTrim t).data = [] then (ts, rem' ++ [c])
              else (ts ++ [t], rem' ++ [c])) = (ts, rem' ++ [c])
            rw [if_pos ht]
          have hfilt : (decide (¬ c ∈ rem) &&
              decide ((jsTrim (textOf lst c)).data ≠ [])) = false := by
            rw [htx, decide_eq_false (not_not_intro ht), Bool.and_false]
          rw [hstep, collectFold_fst lst C hcards.2 ts (rem' ++ [c]) rem
            (hiff2 [c] (fun j hj => List.mem_singleton.mp hj)), List.filter_cons,
            if_neg (by rw [hfilt]; exact Bool.false_ne_true)]
        · have hstep : collectStep lst (ts, rem') c = (ts ++ [t], rem' ++ [c]) := by
            unfold collectStep
            rw [if_neg hc, hm]
            show (if (jsTrim t).data = [] then (ts, rem' ++ [c])
              else (ts ++ [t], rem' ++ [c])) = (ts ++ [t], rem' ++ [c])
            rw [if_neg ht]
          have hfilt : (decide (¬ c ∈ rem) &&
              decide ((jsTrim (textOf lst c)).data ≠ [])) = true := by
            have h2 : decide ((jsTrim (textOf lst c)).data ≠ []) = true := by
              rw [htx]
              exact decide_eq_true ht
            rw [decide_eq_true hcrem, h2]
            rfl
          rw [hstep, collectFold_fst lst C hcards.2 (ts ++ [t]) (rem' ++ [c]) rem
            (hiff2 [c] (fun j hj => List.mem_singleton.mp hj)), List.filter_cons,
            if_pos hfilt, List.map_cons, htx, List.append_assoc]
          rfl

theorem collectChildren_fst (lst : List MarkdownNode) (C rem : List Nat) (hnd : C.Nodup) :
    (collectChildren lst C rem).1
      = (C.filter (fun j => decide (¬ j ∈ rem) &&
          decide ((jsTrim (textOf lst j)).data ≠ []))).map (fun j => textOf lst j) := by
  unfold collectChildren
  exact collectFold_fst lst C hnd [] rem rem (fun j _ => Iff.rfl)

theorem children_mem (lst : List MarkdownNode) (i : Nat) (nd : MarkdownNode)
    (hi : lst[i]? = some nd) (j : Nat) :
    j ∈ findAllChildren i nd.level lst ↔
      (i < j ∧ j < bndL i (levelAt (levelsOf lst) i) (levelsOf lst)) := by
  have hlv : levelAt (levelsOf lst) i = nd.level := by
    unfold levelAt levelsOf
    unfold List.getD
    rw [List.get?_eq_getElem?, List.getElem?_map, hi]
    rfl
  have hspan : spanLen nd.level (lst.drop (i + 1)) =
      spanLenL nd.level ((levelsOf lst).drop (i + 1)) := by
    rw [spanLen_eq_spanLenL]
    unfold levelsOf
    rw [List.map_drop]
  rw [findAllChildren_eq_range', List.mem_range'_1, hlv]
  unfold bndL
  rw [hspan]
  omega

theorem thinStep_spec (T i : Nat) (lst : List MarkdownNode) (rem : List Nat) :
    levelsOf (thinStep T i (lst, rem)).1 = levelsOf lst
    ∧ (∀ j, j ≠ i → (thinStep T i (lst, rem)).1[j]? = lst[j]?)
    ∧ (¬ tokOf lst i < T → (thinStep T i (lst, rem)).1 = lst)
    ∧ (∀ j, j ∈ (thinStep T i (lst, rem)).2 ↔ j ∈ rem ∨
        (¬ i ∈ rem ∧ i < lst.length ∧ tokOf lst i < T ∧ i < j ∧
          j < bndL i (levelAt (levelsOf lst) i) (levelsOf lst))) := by
  by_cases hrem : i ∈ rem
  · have hst : thinStep T i (lst, rem) = (lst, rem) := by
      unfold thinStep
      rw [if_pos hrem]
    rw [hst]
    refine ⟨rfl, fun j _ => rfl, fun _ => rfl, fun j => ?_⟩
    constructor
    · exact fun h => Or.inl h
    · rintro (h | ⟨h1, _⟩)
      · exact h
      · exact absurd hrem h1
  · cases hi : lst[i]? with
    | none =>
      have hst : thinStep T i (lst, rem) = (lst, rem) := by
        unfold thinStep
        rw [if_neg hrem, hi]
      have hlen : lst.length ≤ i := List.getElem?_eq_none_iff.mp hi
      rw [hst]
      refine ⟨rfl, fun j _ => rfl, fun _ => rfl, fun j => ?_⟩
      constructor
      · exact fun h => Or.inl h
      · rintro (h | ⟨_, h2, _⟩)
        · exact h
        · omega
    | some nd =>
      have htok : tokOf lst i = nd.textTokenCount.getD 0 := by
        unfold tokOf
        rw [hi]
        rfl
      have hilen : i < lst.length := (List.getElem?_eq_some_iff.mp hi).1
      by_cases hT : nd.textTokenCount.getD 0 < T
      · have hst : thinStep T i (lst, rem) =
            (if (collectChildren lst (findAllChildren i nd.level lst) rem).1 ≠ [] then
              (lst.set i { nd with
                  text := some (mergeTexts (nd.text.getD (""))
                    (collectChildren lst (findAllChildren i nd.level lst) rem).1),
                  textTokenCount := some (estimateTokens (mergeTexts (nd.text.getD (""))
                    (collectChildren lst (findAllChildren i nd.level lst) rem).1)) },
                (collectChildren lst (findAllChildren i nd.level lst) rem).2)
            else (lst, (collectChildren lst (findAllChildren i nd.level lst) rem).2)) := by
          unfold thinStep
          rw [if_neg hrem, hi]
          show (if nd.textTokenCount.getD 0 < T then _ else (lst, rem)) = _
          rw [if_pos hT]
        have hsnd : (thinStep T i (lst, rem)).2 =
            (collectChildren lst (findAllChildren i nd.level lst) rem).2 := by
          rw [hst]
          by_cases hne : (collectChildren lst (findAllChildren i nd.level lst) rem).1 ≠ []
          · rw [if_pos hne]
          · rw [if_neg hne]
        have hmem : ∀ j, j ∈ (thinStep T i (lst, rem)).2 ↔ j ∈ rem ∨
            (¬ i ∈ rem ∧ i < lst.length ∧ tokOf lst i < T ∧ i < j ∧
              j < bndL i (levelAt (levelsOf lst) i) (levelsOf lst)) := by
          intro j
          rw [hsnd, collectChildren_mem, children_mem lst i nd hi j]
          constructor
          · rintro (h | h)
            · exact Or.inl h
            · exact Or.inr ⟨hrem, hilen, by rw [htok]; exact hT, h.1, h.2⟩
          · rintro (h | ⟨_, _, _, h4, h5⟩)
            · exact Or.inl h
            · exact Or.inr ⟨h4, h5⟩
        have hfst : ∀ j, j ≠ i → (thinStep T i (lst, rem)).1[j]? = lst[j]? := by
          intro j hj
          rw [hst]
          by_cases hne : (collectChildren lst (findAllChildren i nd.level lst) rem).1 ≠ []
          · rw [if_pos hne]
            exact List.getElem?_set_ne (fun he => hj he.symm)
          · rw [if_neg hne]
        have hlvls : levelsOf (thinStep T i (lst, rem)).1 = levelsOf lst := by
          rw [hst]
          by_cases hne : (collectChildren lst (findAllChildren i nd.level lst) rem).1 ≠ []
          · rw [if_pos hne]
            show levelsOf (lst.set i _) = levelsOf lst
            unfold levelsOf
            rw [List.map_set]
            show (lst.map (fun nd => nd.level)).set i nd.level = lst.map (fun nd => nd.level)
            apply List.ext_getElem?
            intro m
            by_cases hm : m = i
            · subst hm
              rw [List.getElem?_set_self (by rw [List.length_map]; exact hilen),
                List.getElem?_map, hi]
              rfl
            · exact List.getElem?_set_ne (fun he => hm he.symm)
          · rw [if_neg hne]
        refine ⟨hlvls, hfst, fun h => absurd (by rw [htok]; exact hT) h, hmem⟩
      · have hst : thinStep T i (lst, rem) = (lst, rem) := by
          unfold thinStep
          rw [if_neg hrem, hi]
          show (if nd.textTokenCount.getD 0 < T then _ else (lst, rem)) = (lst, rem)
          rw [if_neg hT]
        rw [hst]
        refine ⟨rfl, fun j _ => rfl, fun _ => rfl, fun j => ?_⟩
        constructor
        · exact fun h => Or.inl h
        · rintro (h | ⟨_, _, h3, _⟩)
          · exact h
          · rw [htok] at h3
            exact absurd h3 hT

theorem thinAux_inv (T : Nat) (lvls : List Nat) : ∀ (i : Nat) (lst : List MarkdownNode)
    (rem : List Nat), levelsOf lst = lvls →
    (∀ j, j < lvls.length → i ≤ j → ¬ j ∈ rem → tokOf lst j < T →
      ∀ m, j < m → m < bndL j (levelAt lvls j) lvls → m ∈ rem) →
    (∀ j ∈ rem, ∃ a, ¬ a ∈ rem ∧ a < j ∧ j < bndL a (levelAt lvls a) lvls ∧
      ∀ m, a < m → m < bndL a (levelAt lvls a) lvls → m ∈ rem) →
    levelsOf (thinAux T i (lst, rem)).1 = lvls
    ∧ (∀ j ∈ rem, j ∈ (thinAux T i (lst, rem)).2)
    ∧ (∀ j, j < lvls.length → ¬ j ∈ (thinAux T i (lst, rem)).2 →
        tokOf (thinAux T i (lst, rem)).1 j < T →
        ∀ m, j < m → m < bndL j (levelAt lvls j) lvls → m ∈ (thinAux T i (lst, rem)).2)
    ∧ (∀ j ∈ (thinAux T i (lst, rem)).2, ∃ a, ¬ a ∈ (thinAux T i (lst, rem)).2 ∧ a < j ∧
        j < bndL a (levelAt lvls a) lvls ∧
        ∀ m, a < m → m < bndL a (levelAt lvls a) lvls → m ∈ (thinAux T i (lst, rem)).2)
  | 0, lst, rem, hlvls, hF3, hF4 => by
    refine ⟨hlvls, fun j hj => hj, ?_, hF4⟩
    intro j hj1 hj2 hj3 m hm1 hm2
    exact hF3 j hj1 (Nat.zero_le j) hj2 hj3 m hm1 hm2
  | i + 1, lst, rem, hlvls, hF3, hF4 => by
    obtain ⟨hlv2, hoff, hunch, hmem⟩ := thinStep_spec T i lst rem
    rw [hlvls] at hlv2 hmem
    have hlen : lvls.length = lst.length := by
      rw [← hlvls]
      unfold levelsOf
      exact List.length_map lst _
    have hstep3 : ∀ j, j < lvls.length → i ≤ j → ¬ j ∈ (thinStep T i (lst, rem)).2 →
        tokOf (thinStep T i (lst, rem)).1 j < T →
        ∀ m, j < m → m < bndL j (levelAt lvls j) lvls → m ∈ (thinStep T i (lst, rem)).2 := by
      intro j hj1 hj2 hj3 hj4 m hm1 hm2
      have hjrem : ¬ j ∈ rem := fun h => hj3 ((hmem j).mpr (Or.inl h))
      by_cases hji : j = i
      · subst hji
        by_cases htk : tokOf lst j < T
        · exact (hmem m).mpr (Or.inr ⟨hjrem, by omega, htk, hm1, hm2⟩)
        · rw [hunch htk] at hj4
          exact absurd hj4 htk
      · have htk2 : tokOf (thinStep T i (lst, rem)).1 j = tokOf lst j := by
          unfold tokOf
          rw [hoff j hji]
        rw [htk2] at hj4
        exact (hmem m).mpr (Or.inl (hF3 j hj1 (by omega) hjrem hj4 m hm1 hm2))
    have hinotin : ¬ i ∈ (thinStep T i (lst, rem)).2 ∨ i ∈ rem := by
      by_cases hir : i ∈ rem
      · exact Or.inr hir
      · refine Or.inl (fun h => ?_)
        rcases (hmem i).mp h with h1 | ⟨_, _, _, h4, _⟩
        · exact absurd h1 hir
        · omega
    have hstep4 : ∀ j ∈ (thinStep T i (lst, rem)).2, ∃ a, ¬ a ∈ (thinStep T i (lst, rem)).2 ∧
        a < j ∧ j < bndL a (levelAt lvls a) lvls ∧
        ∀ m, a < m → m < bndL a (levelAt lvls a) lvls → m ∈ (thinStep T i (lst, rem)).2 := by
      intro j hj
      rcases (hmem j).mp hj with hjold | ⟨hirem, hilen, htk, hij, hjb⟩
      · obtain ⟨a, ha1, ha2, ha3, ha4⟩ := hF4 j hjold
        by_cases haa : a ∈ (thinStep T i (lst, rem)).2
        · rcases (hmem a).mp haa with h1 | ⟨hirem, hilen, htk, hia, hab⟩
          · exact absurd h1 ha1
          · have hnotin : ¬ i ∈ (thinStep T i (lst, rem)).2 := by
              rcases hinotin with h | h
              · exact h
              · exact absurd h hirem
            refine ⟨i, hnotin, by omega, ?_, ?_⟩
            · have hnest := bndL_nested lvls i a hia hab (by omega)
              omega
            · intro m hm1 hm2
              exact (hmem m).mpr (Or.inr ⟨hirem, hilen, htk, hm1, hm2⟩)
        · exact ⟨a, haa, ha2, ha3, fun m hm1 hm2 => (hmem m).mpr (Or.inl (ha4 m hm1 hm2))⟩
      · have hnotin : ¬ i ∈ (thinStep T i (lst, rem)).2 := by
          rcases hinotin with h | h
          · exact h
          · exact absurd h hirem
        exact ⟨i, hnotin, hij, hjb,
          fun m hm1 hm2 => (hmem m).mpr (Or.inr ⟨hirem, hilen, htk, hm1, hm2⟩)⟩
    have heq : thinAux T (i + 1) (lst, rem) =
        thinAux T i ((thinStep T i (lst, rem)).1, (thinStep T i (lst, rem)).2) := rfl
    obtain ⟨g1, g2, g3, g4⟩ := thinAux_inv T lvls i (thinStep T i (lst, rem)).1
      (thinStep T i (lst, rem)).2 hlv2 hstep3 hstep4
    rw [heq]
    exact ⟨g1, fun j hj => g2 j ((hmem j).mpr (Or.inl hj)), g3, g4⟩

theorem eraseFold_append : ∀ (D : List Nat), D.Pairwise (fun a b => b < a) →
    ∀ (ys : List MarkdownNode) (y : MarkdownNode), (∀ k ∈ D, k < ys.length) →
    D.foldl (fun l index => l.eraseIdx index) (ys ++ [y]) =
      (D.foldl (fun l index => l.eraseIdx index) ys) ++ [y]
  | [], _, ys, y, _ => rfl
  | k :: D, hp, ys, y, hb => by
    have hps := List.pairwise_cons.mp hp
    have hk : k < ys.length := hb k (List.mem_cons_self k D)
    rw [List.foldl_cons, List.foldl_cons, List.eraseIdx_append_of_lt_length hk]
    apply eraseFold_append D hps.2 (ys.eraseIdx k) y
    intro m hm
    have hmk : m < k := hps.1 m hm
    rw [List.length_eraseIdx, if_pos hk]
    omega

theorem removeAbsorbed_eq (rem : List Nat) : ∀ (lst : List MarkdownNode),
    removeAbsorbed lst rem =
      ((List.range lst.length).filter (fun j => decide (¬ j ∈ rem))).filterMap
        (fun j => lst[j]?) := by
  intro lst
  induction lst using List.reverseRecOn with
  | nil => rfl
  | append_singleton ys y ih =>
    unfold removeAbsorbed
    have hlen : (ys ++ [y]).length = ys.length + 1 := by
      rw [List.length_append]
      rfl
    rw [hlen, List.range_succ, List.filter_append, List.filter_append, List.reverse_append,
      List.foldl_append, List.filterMap_append]
    have hfm : (List.filter (fun j => decide (¬ j ∈ rem)) (List.range ys.length)).filterMap
        (fun j => (ys ++ [y])[j]?)
        = (List.filter (fun j => decide (¬ j ∈ rem)) (List.range ys.length)).filterMap
          (fun j => ys[j]?) := by
      apply List.filterMap_congr
      intro j hj
      have hjm : j < ys.length := List.mem_range.mp (List.mem_filter.mp hj).1
      exact List.getElem?_append_left hjm
    by_cases hm : ys.length ∈ rem
    · have hc1 : decide (ys.length ∈ rem) = true := decide_eq_true hm
      have hc2 : decide (¬ ys.length ∈ rem) = false := decide_eq_false (not_not_intro hm)
      have h1 : List.filter (fun j => decide (j ∈ rem)) [ys.length] = [ys.length] := by
        rw [List.filter_cons, if_pos hc1]
        rfl
      have h2 : List.filter (fun j => decide (¬ j ∈ rem)) [ys.length] = [] := by
        rw [List.filter_cons, if_neg (by rw [hc2]; exact Bool.false_ne_true)]
        rfl
      rw [h1, h2]
      show List.foldl (fun l index => l.eraseIdx index) ((ys ++ [y]).eraseIdx ys.length)
        ((List.filter (fun j => decide (j ∈ rem)) (List.range ys.length)).reverse) = _
      have h3 : (ys ++ [y]).eraseIdx ys.length = ys := by
        rw [List.eraseIdx_append_of_length_le (Nat.le_refl ys.length)]
        have h4 : [y].eraseIdx (ys.length - ys.length) = [] := by
          rw [Nat.sub_self]
          rfl
        rw [h4, List.append_nil]
      rw [h3]
      have ihu : List.foldl (fun l index => l.eraseIdx index) ys
          ((List.filter (fun j => decide (j ∈ rem)) (List.range ys.length)).reverse)
          = ((List.range ys.length).filter (fun j => decide (¬ j ∈ rem))).filterMap
            (fun j => ys[j]?) := ih
      rw [ihu, hfm, List.filterMap_nil, List.append_nil]
    · have hc1 : decide (ys.length ∈ rem) = false := decide_eq_false hm
      have hc2 : decide (¬ ys.length ∈ rem) = true := decide_eq_true hm
      have h1 : List.filter (fun j => decide (j ∈ rem)) [ys.length] = [] := by
        rw [List.filter_cons, if_neg (by rw [hc1]; exact Bool.false_ne_true)]
        rfl
      have h2 : List.filter (fun j => decide (¬ j ∈ rem)) [ys.length] = [ys.length] := by
        rw [List.filter_cons, if_pos hc2]
        rfl
      rw [h1, h2]
      show List.foldl (fun l index => l.eraseIdx index) (ys ++ [y])
        ((List.filter (fun j => decide (j ∈ rem)) (List.range ys.length)).reverse) = _
      have hdesc : ((List.filter (fun j => decide (j ∈ rem))
          (List.range ys.length)).reverse).Pairwise (fun a b => b < a) := by
        rw [List.pairwise_reverse]
        exact ((List.pairwise_lt_range ys.length).filter _)
      have hbnd : ∀ k ∈ ((List.filter (fun j => decide (j ∈ rem))
          (List.range ys.length)).reverse), k < ys.length := by
        intro k hk
        exact List.mem_range.mp (List.mem_filter.mp (List.mem_reverse.mp hk)).1
      rw [eraseFold_append _ hdesc ys y hbnd]
      have ihu : List.foldl (fun l index => l.eraseIdx index) ys
          ((List.filter (fun j => decide (j ∈ rem)) (List.range ys.length)).reverse)
          = ((List.range ys.length).filter (fun j => decide (¬ j ∈ rem))).filterMap
            (fun j => ys[j]?) := ih
      rw [ihu, hfm]
      have h3 : [ys.length].filterMap (fun j => (ys ++ [y])[j]?) = [y] := by
        rw [List.filterMap_cons_some (List.getElem?_concat_length ys y)]
        rfl
      rw [h3]

theorem filterMapIdx_getElem (lst : List MarkdownNode) : ∀ (S : List Nat),
    (∀ j ∈ S, j < lst.length) → ∀ (p : Nat),
    (S.filterMap (fun j => lst[j]?))[p]? = (S[p]?).bind (fun j => lst[j]?)
  | [], _, p => by simp
  | j :: S, hb, p => by
    have hj : j < lst.length := hb j (List.mem_cons_self j S)
    obtain ⟨nd, hnd⟩ : ∃ nd, lst[j]? = some nd := by
      cases h : lst[j]? with
      | none =>
        have := List.getElem?_eq_none_iff.mp h
        omega
      | some nd => exact ⟨nd, rfl⟩
    rw [List.filterMap_cons_some hnd]
    cases p with
    | zero =>
      rw [List.getElem?_cons_zero, List.getElem?_cons_zero, Option.some_bind]
      exact hnd.symm
    | succ p =>
      rw [List.getElem?_cons_succ, List.getElem?_cons_succ]
      exact filterMapIdx_getElem lst S (fun m hm => hb m (List.mem_cons_of_mem j hm)) p

theorem sorted_next_gap (S : List Nat) (hs : S.Pairwise (· < ·)) (p j j' : Nat)
    (hp : S[p]? = some j) (hp' : S[p + 1]? = some j') (m : Nat) (hm : m ∈ S) :
    m ≤ j ∨ j' ≤ m := by
  obtain ⟨hpl, hpe⟩ := List.getElem?_eq_some_iff.mp hp
  obtain ⟨hpl', hpe'⟩ := List.getElem?_eq_some_iff.mp hp'
  obtain ⟨q, hq, hqe⟩ := List.mem_iff_getElem.mp hm
  have hpg := List.pairwise_iff_getElem.mp hs
  rcases Nat.lt_trichotomy q (p + 1) with h | h | h
  · rcases Nat.lt_or_ge q p with h2 | h2
    · have h3 := hpg q p hq hpl h2
      rw [hqe, hpe] at h3
      omega
    · have h3 : q = p := by omega
      subst h3
      rw [hqe] at hpe
      omega
  · subst h
    rw [hqe] at hpe'
    omega
  · have h3 := hpg (p + 1) q hpl' hq h
    rw [hqe, hpe'] at h3
    omega

theorem spanLen_pos_head (lvl : Nat) (L : List MarkdownNode) (h : 0 < spanLen lvl L) :
    ∃ nd, L.head? = some nd ∧ lvl < nd.level := by
  cases L with
  | nil =>
    rw [show spanLen lvl [] = 0 from rfl] at h
    omega
  | cons nd rest =>
    by_cases hl : nd.level ≤ lvl
    · rw [show spanLen lvl (nd :: rest) = 0 from by
        show (if nd.level ≤ lvl then 0 else 1 + spanLen lvl rest) = 0
        rw [if_pos hl]] at h
      omega
    · exact ⟨nd, rfl, by omega⟩

/-- C5: after `treeThinningForIndex` runs with threshold `T`, every surviving
section that still has children — subsequent surviving sections of strictly
greater level before the next section of equal-or-lower level, that is, a
nonempty `findAllChildren` set computed over the surviving list — has a token
count of at least `T`.  The exception the specification allows (a
below-threshold parent kept with children because nothing remained to absorb)
cannot arise, because the merge loop marks every child index for removal even
when it collects no text. -/
theorem C5_surviving_parents_meet_threshold (l : List MarkdownNode) (T p : Nat)
    (nd : MarkdownNode) (hnd : (treeThinningForIndex l T)[p]? = some nd)
    (hch : findAllChildren p nd.level (treeThinningForIndex l T) ≠ []) :
    T ≤ nd.textTokenCount.getD 0 := by
  have hres : treeThinningForIndex l T =
      removeAbsorbed (thinAux T l.length (l, [])).1 (thinAux T l.length (l, [])).2 := rfl
  obtain ⟨hlev, _, hF3, hF4⟩ := thinAux_inv T (levelsOf l) l.length l [] rfl
    (by
      intro j hj1 hj2
      have hlenl : (levelsOf l).length = l.length := List.length_map l _
      omega)
    (fun j hj => absurd hj (List.not_mem_nil j))
  have hlenl : (levelsOf l).length = l.length := List.length_map l _
  have hlenF : (thinAux T l.length (l, [])).1.length = l.length := by
    have h1 := congrArg List.length hlev
    unfold levelsOf at h1
    rw [List.length_map, List.length_map] at h1
    exact h1
  rw [hres, removeAbsorbed_eq] at hnd hch
  have hSb : ∀ j ∈ (List.range (thinAux T l.length (l, [])).1.length).filter
      (fun j => decide (¬ j ∈ (thinAux T l.length (l, [])).2)),
      j < (thinAux T l.length (l, [])).1.length := by
    intro j hj
    exact List.mem_range.mp (List.mem_filter.mp hj).1
  have hmemS : ∀ x, x ∈ (List.range (thinAux T l.length (l, [])).1.length).filter
      (fun j => decide (¬ j ∈ (thinAux T l.length (l, [])).2)) ↔
      (x < (thinAux T l.length (l, [])).1.length ∧ ¬ x ∈ (thinAux T l.length (l, [])).2) := by
    intro x
    rw [List.mem_filter, List.mem_range, decide_eq_true_iff]
  have hSsort : ((List.range (thinAux T l.length (l, [])).1.length).filter
      (fun j => decide (¬ j ∈ (thinAux T l.length (l, [])).2))).Pairwise (· < ·) :=
    (List.pairwise_lt_range _).filter _
  rw [filterMapIdx_getElem _ _ hSb p] at hnd
  obtain ⟨j, hSj, hjF⟩ : ∃ j, ((List.range (thinAux T l.length (l, [])).1.length).filter
      (fun j => decide (¬ j ∈ (thinAux T l.length (l, [])).2)))[p]? = some j ∧
      (thinAux T l.length (l, [])).1[j]? = some nd := by
    cases hS : ((List.range (thinAux T l.length (l, [])).1.length).filter
        (fun j => decide (¬ j ∈ (thinAux T l.length (l, [])).2)))[p]? with
    | none =>
      rw [hS] at hnd
      exact absurd hnd (by rw [Option.none_bind]; exact fun h => Option.noConfusion h)
    | some j =>
      rw [hS, Option.some_bind] at hnd
      exact ⟨j, rfl, hnd⟩
  rw [findAllChildren_eq_range'] at hch
  have hpos : 0 < spanLen nd.level ((((List.range (thinAux T l.length (l, [])).1.length).filter
      (fun j => decide (¬ j ∈ (thinAux T l.length (l, [])).2))).filterMap
        (fun j => (thinAux T l.length (l, [])).1[j]?)).drop (p + 1)) := by
    rcases Nat.eq_zero_or_pos (spanLen nd.level
        ((((List.range (thinAux T l.length (l, [])).1.length).filter
          (fun j => decide (¬ j ∈ (thinAux T l.length (l, [])).2))).filterMap
            (fun j => (thinAux T l.length (l, [])).1[j]?)).drop (p + 1))) with h0 | h0
    · rw [h0] at hch
      exact absurd rfl hch
    · exact h0
  obtain ⟨nd2, hhead, hlt⟩ := spanLen_pos_head _ _ hpos
  rw [List.head?_drop, filterMapIdx_getElem _ _ hSb (p + 1)] at hhead
  obtain ⟨j', hSj', hj'F⟩ : ∃ j', ((List.range (thinAux T l.length (l, [])).1.length).filter
      (fun j => decide (¬ j ∈ (thinAux T l.length (l, [])).2)))[p + 1]? = some j' ∧
      (thinAux T l.length (l, [])).1[j']? = some nd2 := by
    cases hS : ((List.range (thinAux T l.length (l, [])).1.length).filter
        (fun j => decide (¬ j ∈ (thinAux T l.length (l, [])).2)))[p + 1]? with
    | none =>
      rw [hS] at hhead
      exact absurd hhead (by rw [Option.none_bind]; exact fun h => Option.noConfusion h)
    | some j' =>
      rw [hS, Option.some_bind] at hhead
      exact ⟨j', rfl, hhead⟩
  have hjS := (hmemS j).mp (by
    obtain ⟨h1, h2⟩ := List.getElem?_eq_some_iff.mp hSj
    rw [← h2]
    exact List.getElem_mem h1)
  have hj'S := (hmemS j').mp (by
    obtain ⟨h1, h2⟩ := List.getElem?_eq_some_iff.mp hSj'
    rw [← h2]
    exact List.getElem_mem h1)
  have hjj' : j < j' := by
    obtain ⟨h1, h2⟩ := List.getElem?_eq_some_iff.mp hSj
    obtain ⟨h3, h4⟩ := List.getElem?_eq_some_iff.mp hSj'
    have h5 := (List.pairwise_iff_getElem.mp hSsort) p (p + 1) h1 h3 (Nat.lt_succ_self p)
    rw [h2, h4] at h5
    exact h5
  have hLA : ∀ (k : Nat) (x : MarkdownNode), (thinAux T l.length (l, [])).1[k]? = some x →
      levelAt (levelsOf l) k = x.level := by
    intro k x hk
    unfold levelAt
    rw [← hlev]
    unfold levelsOf List.getD
    rw [List.get?_eq_getElem?, List.getElem?_map, hk]
    rfl
  have hLAj : levelAt (levelsOf l) j = nd.level := hLA j nd hjF
  have hLAj' : levelAt (levelsOf l) j' = nd2.level := hLA j' nd2 hj'F
  by_contra htok
  have htok2 : tokOf (thinAux T l.length (l, [])).1 j < T := by
    unfold tokOf
    rw [hjF]
    show nd.textTokenCount.getD 0 < T
    omega
  have hspan := hF3 j (by omega) hjS.2 htok2
  have hj'B : j' < bndL j (levelAt (levelsOf l) j) (levelsOf l) := by
    by_contra hge
    have hge2 : bndL j (levelAt (levelsOf l) j) (levelsOf l) ≤ j' := by omega
    have hBn : bndL j (levelAt (levelsOf l) j) (levelsOf l) < (levelsOf l).length := by
      have := hj'S.1
      omega
    have hlevB := bndL_end j (levelAt (levelsOf l) j) (levelsOf l) hBn
    by_cases hBrem : bndL j (levelAt (levelsOf l) j) (levelsOf l) ∈ (thinAux T l.length (l, [])).2
    · obtain ⟨a, ha1, ha2, ha3, ha4⟩ := hF4 _ hBrem
      rcases Nat.lt_trichotomy a j with hc | hc | hc
      · have hjb := bndL_gt j (levelAt (levelsOf l) j) (levelsOf l)
        exact absurd (ha4 j hc (by omega)) hjS.2
      · subst hc
        have hjb := bndL_gt a (levelAt (levelsOf l) a) (levelsOf l)
        omega
      · have hjb := bndL_gt j (levelAt (levelsOf l) j) (levelsOf l)
        exact absurd (hspan a hc ha2) ha1
    · have hBS := (hmemS _).mpr ⟨by omega, hBrem⟩
      have hgap := sorted_next_gap _ hSsort p j j' hSj hSj' _ hBS
      have hjb := bndL_gt j (levelAt (levelsOf l) j) (levelsOf l)
      have hBj' : bndL j (levelAt (levelsOf l) j) (levelsOf l) = j' := by omega
      rw [hBj', hLAj', hLAj] at hlevB
      omega
  exact absurd (hspan j' hjj' hj'B) hj'S.2

theorem C5_witness :
    (treeThinningForIndex c5List 5)[0]? = some c5Parent
    ∧ findAllChildren 0 c5Parent.level (treeThinningForIndex c5List 5) ≠ []
    ∧ 5 ≤ c5Parent.textTokenCount.getD 0 :=
  ⟨rfl, by decide,
    C5_surviving_parents_meet_threshold c5List 5 0 c5Parent rfl (by decide)⟩

theorem range'_split (m : Nat) : ∀ (s k : Nat),
    List.range' s (m + k) = List.range' s m ++ List.range' (s + m) k := by
  induction m with
  | zero =>
    intro s k
    rw [Nat.zero_add, Nat.add_zero]
    rfl
  | succ m ih =>
    intro s k
    have h1 : List.range' s (m + 1 + k) = s :: List.range' (s + 1) (m + k) := by
      have h2 : m + 1 + k = (m + k) + 1 := by omega
      rw [h2, List.range'_succ]
    rw [h1, ih (s + 1) k, List.range'_succ]
    have h3 : s + 1 + m = s + (m + 1) := by omega
    rw [h3]
    rfl

theorem spanLen_le_length (lvl : Nat) (L : List MarkdownNode) : spanLen lvl L ≤ L.length := by
  rw [spanLen_eq_spanLenL]
  have h1 := spanLenL_le_length lvl (L.map (fun nd => nd.level))
  rw [List.length_map] at h1
  exact h1

theorem stripWs_mergeTexts (ownText : String) : ∀ (texts : List String),
    stripWsChars (mergeTexts ownText texts).data
      = stripWsChars ownText.data ++ (texts.map (fun t => stripWsChars t.data)).flatten
  | [] => by
    show stripWsChars ownText.data = stripWsChars ownText.data ++ [].flatten
    rw [List.flatten_nil, List.append_nil]
  | t :: ts => by
    have hstep : mergeTexts ownText (t :: ts) =
        mergeTexts ((if ownText.data ≠ [] ∧ ¬ endsWithNewline ownText
          then ownText ++ ("\n\n") else ownText) ++ t) ts := rfl
    rw [hstep, stripWs_mergeTexts _ ts]
    have hown : stripWsChars ((if ownText.data ≠ [] ∧ ¬ endsWithNewline ownText
        then ownText ++ ("\n\n") else ownText) ++ t).data
        = stripWsChars ownText.data ++ stripWsChars t.data := by
      rw [String.data_append, stripWsChars_append]
      by_cases hc : ownText.data ≠ [] ∧ ¬ endsWithNewline ownText
      · rw [if_pos hc, String.data_append, stripWsChars_append]
        have hnl : stripWsChars ("\n\n").data = [] := rfl
        rw [hnl, List.append_nil]
      · rw [if_neg hc]
    rw [hown, List.map_cons, List.flatten_cons, List.append_assoc]

theorem flatten_filter_sub (f : Nat → List Char) (q r : Nat → Bool) :
    ∀ (L : List Nat), (∀ j ∈ L, q j = true → r j = false → f j = []) →
    ((L.filter q).map f).flatten = ((L.filter (fun j => q j && r j)).map f).flatten
  | [], _ => rfl
  | a :: L, h => by
    have ih := flatten_filter_sub f q r L (fun j hj => h j (List.mem_cons_of_mem a hj))
    rw [List.filter_cons, List.filter_cons]
    cases hq : q a with
    | false =>
      rw [if_neg Bool.false_ne_true,
        if_neg (show ¬((false && r a) = true) from fun hx => Bool.noConfusion hx)]
      exact ih
    | true =>
      cases hr : r a with
      | true =>
        rw [if_pos rfl, if_pos (show (true && true) = true from rfl), List.map_cons,
          List.map_cons, List.flatten_cons, List.flatten_cons, ih]
      | false =>
        rw [if_pos rfl, if_neg (show ¬((true && false) = true) from
            fun hx => Bool.noConfusion hx),
          List.map_cons, List.flatten_cons, h a (List.mem_cons_self a L) hq hr,
          List.nil_append]
        exact ih

theorem range'_one (i : Nat) : List.range' i 1 = [i] := rfl

theorem swConcat_mergeCase (lst : List MarkdownNode) (rem : List Nat) (i : Nat)
    (nd : MarkdownNode) (hi : lst[i]? = some nd) (hrem : ¬ i ∈ rem)
    (lst2 : List MarkdownNode) (rem2 : List Nat) (hlen2 : lst2.length = lst.length)
    (hoff : ∀ j, j ≠ i → lst2[j]? = lst[j]?)
    (hti : stripWsChars (textOf lst2 i).data = stripWsChars (textOf lst i).data ++
      ((collectChildren lst (findAllChildren i nd.level lst) rem).1.map
        (fun t => stripWsChars t.data)).flatten)
    (hmem2 : ∀ j, j ∈ rem2 ↔ j ∈ rem ∨ j ∈ findAllChildren i nd.level lst) :
    swConcat lst2 rem2 = swConcat lst rem := by
  have hilen : i < lst.length := (List.getElem?_eq_some_iff.mp hi).1
  have hmem2' : ∀ j, j ∈ rem2 ↔ j ∈ rem ∨
      (i + 1 ≤ j ∧ j < i + 1 + spanLen nd.level (lst.drop (i + 1))) := by
    intro j
    rw [hmem2 j, findAllChildren_eq_range', List.mem_range'_1]
  have hsb : i + 1 + spanLen nd.level (lst.drop (i + 1)) ≤ lst.length := by
    have h1 := spanLen_le_length nd.level (lst.drop (i + 1))
    rw [List.length_drop] at h1
    omega
  have hsplit : List.range lst.length = List.range' 0 i ++ (List.range' i 1 ++
      (List.range' (i + 1) (spanLen nd.level (lst.drop (i + 1))) ++
        List.range' (i + 1 + spanLen nd.level (lst.drop (i + 1)))
          (lst.length - (i + 1 + spanLen nd.level (lst.drop (i + 1)))))) := by
    have hn : lst.length = i + (1 + (spanLen nd.level (lst.drop (i + 1)) +
        (lst.length - (i + 1 + spanLen nd.level (lst.drop (i + 1)))))) := by omega
    calc List.range lst.length = List.range' 0 lst.length := List.range_eq_range' lst.length
      _ = List.range' 0 (i + (1 + (spanLen nd.level (lst.drop (i + 1)) +
          (lst.length - (i + 1 + spanLen nd.level (lst.drop (i + 1))))))) := by rw [← hn]
      _ = List.range' 0 i ++ List.range' (0 + i) (1 + (spanLen nd.level (lst.drop (i + 1)) +
          (lst.length - (i + 1 + spanLen nd.level (lst.drop (i + 1)))))) := range'_split i 0 _
      _ = List.range' 0 i ++ (List.range' i 1 ++
          List.range' (i + 1) (spanLen nd.level (lst.drop (i + 1)) +
            (lst.length - (i + 1 + spanLen nd.level (lst.drop (i + 1)))))) := by
            rw [Nat.zero_add, range'_split 1 i _]
      _ = List.range' 0 i ++ (List.range' i 1 ++
          (List.range' (i + 1) (spanLen nd.level (lst.drop (i + 1))) ++
            List.range' (i + 1 + spanLen nd.level (lst.drop (i + 1)))
              (lst.length - (i + 1 + spanLen nd.level (lst.drop (i + 1)))))) := by
            rw [range'_split (spanLen nd.level (lst.drop (i + 1))) (i + 1) _]
  unfold swConcat
  rw [hlen2, hsplit]
  simp only [List.filter_append, List.map_append, List.flatten_append]
  have hA : ((List.filter (fun j => decide (¬ j ∈ rem2)) (List.range' 0 i)).map
      (fun j => stripWsChars (textOf lst2 j).data)).flatten
      = ((List.filter (fun j => decide (¬ j ∈ rem)) (List.range' 0 i)).map
        (fun j => stripWsChars (textOf lst j).data)).flatten := by
    rw [List.filter_congr (fun j hj => ?_)]
    · apply congrArg
      apply List.map_congr_left
      intro j hj
      have hjr : j < i := by
        have := (List.mem_range'_1.mp (List.mem_filter.mp hj).1).2
        omega
      unfold textOf
      rw [hoff j (by omega)]
    · apply decide_eq_decide.mpr
      apply not_congr
      have hjr : j < i := by
        have := (List.mem_range'_1.mp hj).2
        omega
      rw [hmem2' j]
      constructor
      · rintro (h | ⟨h1, _⟩)
        · exact h
        · omega
      · exact fun h => Or.inl h
  have hZ : ((List.filter (fun j => decide (¬ j ∈ rem2))
      (List.range' (i + 1 + spanLen nd.level (lst.drop (i + 1)))
        (lst.length - (i + 1 + spanLen nd.level (lst.drop (i + 1)))))).map
      (fun j => stripWsChars (textOf lst2 j).data)).flatten
      = ((List.filter (fun j => decide (¬ j ∈ rem))
        (List.range' (i + 1 + spanLen nd.level (lst.drop (i + 1)))
          (lst.length - (i + 1 + spanLen nd.level (lst.drop (i + 1)))))).map
        (fun j => stripWsChars (textOf lst j).data)).flatten := by
    rw [List.filter_congr (fun j hj => ?_)]
    · apply congrArg
      apply List.map_congr_left
      intro j hj
      have hjr := (List.mem_range'_1.mp (List.mem_filter.mp hj).1).1
      unfold textOf
      rw [hoff j (by omega)]
    · apply decide_eq_decide.mpr
      apply not_congr
      have hjr := (List.mem_range'_1.mp hj).1
      rw [hmem2' j]
      constructor
      · rintro (h | ⟨_, h2⟩)
        · exact h
        · omega
      · exact fun h => Or.inl h
  have hi2 : ¬ i ∈ rem2 := by
    rw [hmem2' i]
    rintro (h | ⟨h1, _⟩)
    · exact hrem h
    · omega
  have hI2 : List.filter (fun j => decide (¬ j ∈ rem2)) (List.range' i 1) = [i] := by
    rw [range'_one, List.filter_cons, if_pos (decide_eq_true hi2)]
    rfl
  have hI1 : List.filter (fun j => decide (¬ j ∈ rem)) (List.range' i 1) = [i] := by
    rw [range'_one, List.filter_cons, if_pos (decide_eq_true hrem)]
    rfl
  have hM2 : List.filter (fun j => decide (¬ j ∈ rem2))
      (List.range' (i + 1) (spanLen nd.level (lst.drop (i + 1)))) = [] := by
    rw [List.filter_eq_nil_iff]
    intro j hj
    have hjm := List.mem_range'_1.mp hj
    have : j ∈ rem2 := (hmem2' j).mpr (Or.inr ⟨hjm.1, hjm.2⟩)
    rw [decide_eq_false (not_not_intro this)]
    exact Bool.false_ne_true
  have hM1 : ((List.filter (fun j => decide (¬ j ∈ rem))
      (List.range' (i + 1) (spanLen nd.level (lst.drop (i + 1))))).map
      (fun j => stripWsChars (textOf lst j).data)).flatten
      = ((collectChildren lst (findAllChildren i nd.level lst) rem).1.map
        (fun t => stripWsChars t.data)).flatten := by
    rw [collectChildren_fst lst _ rem (by
      rw [findAllChildren_eq_range']
      exact List.nodup_range' _ _), findAllChildren_eq_range', List.map_map]
    rw [flatten_filter_sub (fun j => stripWsChars (textOf lst j).data)
      (fun j => decide (¬ j ∈ rem)) (fun j => decide ((jsTrim (textOf lst j)).data ≠ []))
      (List.range' (i + 1) (spanLen nd.level (lst.drop (i + 1)))) (fun j _ hq hr => ?_)]
    · apply congrArg
      apply List.map_congr_left
      intro j _
      rfl
    · apply stripWsChars_nil_of_trim_nil
      have hr2 : decide ((jsTrim (textOf lst j)).data ≠ []) = false := hr
      have h1 := of_decide_eq_false hr2
      rw [not_not] at h1
      exact h1
  rw [hA, hZ, hI2, hI1, hM2, hM1]
  simp only [List.map_cons, List.map_nil, List.flatten_cons, List.flatten_nil,
    List.append_nil, List.nil_append]
  rw [hti]
  simp only [List.append_assoc]

theorem thinStep_sw (T i : Nat) (lst : List MarkdownNode) (rem : List Nat) :
    swConcat (thinStep T i (lst, rem)).1 (thinStep T i (lst, rem)).2 = swConcat lst rem := by
  by_cases hrem : i ∈ rem
  · have hst : thinStep T i (lst, rem) = (lst, rem) := by
      unfold thinStep
      rw [if_pos hrem]
    rw [hst]
  · cases hi : lst[i]? with
    | none =>
      have hst : thinStep T i (lst, rem) = (lst, rem) := by
        unfold thinStep
        rw [if_neg hrem, hi]
      rw [hst]
    | some nd =>
      have hilen : i < lst.length := (List.getElem?_eq_some_iff.mp hi).1
      by_cases hT : nd.textTokenCount.getD 0 < T
      · have hst : thinStep T i (lst, rem) =
            (if (collectChildren lst (findAllChildren i nd.level lst) rem).1 ≠ [] then
              (lst.set i { nd with
                  text := some (mergeTexts (nd.text.getD (""))
                    (collectChildren lst (findAllChildren i nd.level lst) rem).1),
                  textTokenCount := some (estimateTokens (mergeTexts (nd.text.getD (""))
                    (collectChildren lst (findAllChildren i nd.level lst) rem).1)) },
                (collectChildren lst (findAllChildren i nd.level lst) rem).2)
            else (lst, (collectChildren lst (findAllChildren i nd.level lst) rem).2)) := by
          unfold thinStep
          rw [if_neg hrem, hi]
          show (if nd.textTokenCount.getD 0 < T then _ else (lst, rem)) = _
          rw [if_pos hT]
        have htOfi : textOf lst i = nd.text.getD ("") := by
          unfold textOf
          rw [hi]
          rfl
        rw [hst]
        by_cases hne : (collectChildren lst (findAllChildren i nd.level lst) rem).1 ≠ []
        · rw [if_pos hne]
          apply swConcat_mergeCase lst rem i nd hi hrem
          · exact List.length_set lst i _
          · intro j hj
            exact List.getElem?_set_ne (fun he => hj he.symm)
          · have hset : textOf (lst.set i { nd with
                text := some (mergeTexts (nd.text.getD (""))
                  (collectChildren lst (findAllChildren i nd.level lst) rem).1),
                textTokenCount := some (estimateTokens (mergeTexts (nd.text.getD (""))
                  (collectChildren lst (findAllChildren i nd.level lst) rem).1)) }) i
                = mergeTexts (nd.text.getD (""))
                  (collectChildren lst (findAllChildren i nd.level lst) rem).1 := by
              unfold textOf
              rw [List.getElem?_set_self hilen]
              rfl
            rw [hset, htOfi, stripWs_mergeTexts]
          · exact fun j => collectChildren_mem lst _ rem j
        · rw [if_neg hne]
          apply swConcat_mergeCase lst rem i nd hi hrem
          · rfl
          · exact fun j _ => rfl
          · rw [not_not] at hne
            rw [hne, List.map_nil, List.flatten_nil, List.append_nil]
          · exact fun j => collectChildren_mem lst _ rem j
      · have hst : thinStep T i (lst, rem) = (lst, rem) := by
          unfold thinStep
          rw [if_neg hrem, hi]
          show (if nd.textTokenCount.getD 0 < T then _ else (lst, rem)) = (lst, rem)
          rw [if_neg hT]
        rw [hst]

theorem thinAux_sw (T : Nat) : ∀ (i : Nat) (lst : List MarkdownNode) (rem : List Nat),
    swConcat (thinAux T i (lst, rem)).1 (thinAux T i (lst, rem)).2 = swConcat lst rem
  | 0, _, _ => rfl
  | i + 1, lst, rem => by
    have heq : thinAux T (i + 1) (lst, rem) =
        thinAux T i ((thinStep T i (lst, rem)).1, (thinStep T i (lst, rem)).2) := rfl
    rw [heq, thinAux_sw T i _ _]
    exact thinStep_sw T i lst rem

theorem filterMap_strip (lst : List MarkdownNode) : ∀ (S : List Nat),
    (∀ j ∈ S, j < lst.length) →
    ((S.filterMap (fun j => lst[j]?)).map
      (fun nd => stripWsChars (nd.text.getD ("")).data)).flatten
      = (S.map (fun j => stripWsChars (textOf lst j).data)).flatten
  | [], _ => rfl
  | j :: S, hb => by
    have hj : j < lst.length := hb j (List.mem_cons_self j S)
    obtain ⟨nd, hnd⟩ : ∃ nd, lst[j]? = some nd := by
      cases h : lst[j]? with
      | none =>
        have := List.getElem?_eq_none_iff.mp h
        omega
      | some nd => exact ⟨nd, rfl⟩
    have htx : textOf lst j = nd.text.getD ("") := by
      unfold textOf
      rw [hnd]
      rfl
    rw [List.filterMap_cons_some hnd, List.map_cons, List.map_cons, List.flatten_cons,
      List.flatten_cons, htx,
      filterMap_strip lst S (fun m hm => hb m (List.mem_cons_of_mem j hm))]

theorem range_map_textOf : ∀ (lst : List MarkdownNode),
    (List.range lst.length).map (fun j => stripWsChars (textOf lst j).data)
      = lst.map (fun nd => stripWsChars (nd.text.getD ("")).data) := by
  intro lst
  induction lst using List.reverseRecOn with
  | nil => rfl
  | append_singleton ys y ih =>
    have hlen : (ys ++ [y]).length = ys.length + 1 := by
      rw [List.length_append]
      rfl
    have h1 : textOf (ys ++ [y]) ys.length = y.text.getD ("") := by
      unfold textOf
      rw [List.getElem?_concat_length]
      rfl
    have h2 : ∀ j ∈ List.range ys.length,
        stripWsChars (textOf (ys ++ [y]) j).data = stripWsChars (textOf ys j).data := by
      intro j hj
      have hjl := List.mem_range.mp hj
      unfold textOf
      rw [List.getElem?_append_left hjl]
    rw [hlen, List.range_succ, List.map_append, List.map_append,
      List.map_congr_left h2, ih, List.map_cons, List.map_nil, List.map_cons,
      List.map_nil, h1]

/-- C1 (amended): `treeThinningForIndex` preserves the concatenated section
text up to whitespace — stripping every whitespace character, the
concatenation of the surviving sections' texts equals that of the original
list.  Verbatim equality fails because the merge loop inserts a blank-line
separator (see the counterexample) and silently drops whitespace-only child
texts. -/
theorem C1_thinning_preserves_text_up_to_ws (l : List MarkdownNode) (T : Nat) :
    stripWsChars (concatSecTexts (treeThinningForIndex l T))
      = stripWsChars (concatSecTexts l) := by
  have hres : treeThinningForIndex l T =
      removeAbsorbed (thinAux T l.length (l, [])).1 (thinAux T l.length (l, [])).2 := rfl
  rw [hres, removeAbsorbed_eq]
  unfold concatSecTexts
  rw [stripWsChars_flatten, stripWsChars_flatten, List.map_map, List.map_map]
  have hfun : (stripWsChars ∘ fun nd : MarkdownNode => (nd.text.getD ("")).data)
      = (fun nd : MarkdownNode => stripWsChars (nd.text.getD ("")).data) := rfl
  rw [hfun]
  have hSb : ∀ j ∈ (List.range (thinAux T l.length (l, [])).1.length).filter
      (fun j => decide (¬ j ∈ (thinAux T l.length (l, [])).2)),
      j < (thinAux T l.length (l, [])).1.length := by
    intro j hj
    exact List.mem_range.mp (List.mem_filter.mp hj).1
  rw [filterMap_strip _ _ hSb]
  have hsw : ((((List.range (thinAux T l.length (l, [])).1.length).filter
      (fun j => decide (¬ j ∈ (thinAux T l.length (l, [])).2)))).map
      (fun j => stripWsChars (textOf (thinAux T l.length (l, [])).1 j).data)).flatten
      = swConcat (thinAux T l.length (l, [])).1 (thinAux T l.length (l, [])).2 := rfl
  rw [hsw, thinAux_sw T l.length l []]
  have hfilt : List.filter (fun j => decide (¬ j ∈ ([] : List Nat)))
      (List.range l.length) = List.range l.length :=
    List.filter_eq_self.mpr (fun a _ => decide_eq_true (List.not_mem_nil a))
  show (((List.range l.length).filter (fun j => decide (¬ j ∈ ([] : List Nat)))).map
      (fun j => stripWsChars (textOf l j).data)).flatten = _
  rw [hfilt, range_map_textOf l]

/-- C1 counterexample: for two sections with texts 'a' and 'b' and a large
threshold, thinning merges the child into the parent as 'a\n\nb', so the
plain concatenation of surviving texts differs from the original
concatenation 'ab' — the claimed verbatim equality fails (it holds only up
to whitespace). -/
theorem C1_counterexample :
    concatSecTexts (treeThinningForIndex [⟨("A"), 1, 1, some ("a"), some 0⟩,
        ⟨("B"), 2, 2, some ("b"), some 0⟩] 10)
      ≠ concatSecTexts [⟨("A"), 1, 1, some ("a"), some 0⟩,
        ⟨("B"), 2, 2, some ("b"), some 0⟩] := by decide
